import Mathlib

/-
Verification of the orbital-correction core (pyrate/orbital.py) against its
natural-language specification.  Shallow embedding: numpy float arrays are
modelled as lists of rationals, NaN (no-data) as Option.none, raised Python
exceptions as Except values, and in-place phase mutation as returning the
updated interferogram list.  The external solvers (scipy lstsq, numpy pinv)
are taken as parameters of the functions that call them.
-/

namespace PyRate

/-- Python values relevant to the offset argument: the source distinguishes
the test offset is True (identity with the literal True) from mere
truthiness (if offset:). -/
inductive PyVal where
  | none
  | bool (b : Bool)
  | int (n : ℤ)
deriving DecidableEq

/-- The Python test x is True (identity with the literal True). -/
def PyVal.isTrue : PyVal → Bool
  | .bool true => true
  | _ => false

/-- Python truthiness of a value, as used by an if statement. -/
def PyVal.truthy : PyVal → Bool
  | .none => false
  | .bool b => b
  | .int n => n != 0

/-- Exceptions that can escape the orbital-correction core: OrbitalError
(raised by the module itself), ValueError (numpy slice-assignment shape
mismatch) and failures raised inside the external least-squares solver. -/
inductive PyErr where
  | orbital (msg : String)
  | value (msg : String)
  | solverFail (msg : String)
deriving DecidableEq

/-- An interferogram: the 2-D phase array is stored row-major flattened
(the source itself reshapes between the two layouts, which are in
bijection), with Option.none modelling a NaN (no-data) cell. -/
structure Ifg where
  nrows : ℕ
  ncols : ℕ
  x_size : ℚ
  y_size : ℚ
  master : ℕ
  slave : ℕ
  phase_data : List (Option ℚ)
deriving DecidableEq

instance : Inhabited Ifg := ⟨⟨0, 0, 0, 0, 0, 0, []⟩⟩

/-- Pixel count, rows times columns. -/
def Ifg.num_cells (i : Ifg) : ℕ := i.nrows * i.ncols

-- constants from orbital.py
def INDEPENDENT_METHOD : ℕ := 1
def NETWORK_METHOD : ℕ := 2
def PLANAR : ℕ := 1
def QUADRATIC : ℕ := 2
def PART_CUBIC : ℕ := 3

/-- get_num_params from orbital.py: 2, 5 or 6 base parameters (the final
else branch catches every degree that is not PLANAR or QUADRATIC), plus one
if and only if offset is the literal True. -/
def get_num_params (degree : ℕ) (offset : PyVal) : ℕ :=
  let nparams := if degree = PLANAR then 2 else if degree = QUADRATIC then 5 else 6
  if offset.isTrue then nparams + 1 else nparams

/-- One row of the per-pixel design matrix: numpy empty is modelled by a row
of an arbitrary uninit value, and each data assignment of the source
becomes a List.set; a degree outside the three handled ones leaves the base
columns uninitialised, exactly as the source does. -/
def dmRow (uninit : ℚ) (degree : ℕ) (offset : PyVal) (ncols : ℕ)
    (xsize ysize : ℚ) (k : ℕ) : List ℚ :=
  let x : ℚ := (k % ncols : ℕ) * xsize
  let y : ℚ := (k / ncols : ℕ) * ysize
  let d := List.replicate (get_num_params degree offset) uninit
  let d :=
    if degree = PLANAR then
      (d.set 0 x).set 1 y
    else if degree = QUADRATIC then
      ((((d.set 0 (x ^ 2)).set 1 (y ^ 2)).set 2 (x * y)).set 3 x).set 4 y
    else if degree = PART_CUBIC then
      (((((d.set 0 (x * y ^ 2)).set 1 (x ^ 2)).set 2 (y ^ 2)).set 3 (x * y)).set 4 x).set 5 y
    else d
  if offset.isTrue then d.set (d.length - 1) 1 else d

/-- The matrix built by get_design_matrix, as a list of rows; row k is the
pixel with x = (k mod ncols) * x_size and y = (k div ncols) * y_size, the
row-major flattening of the meshgrid in the source. -/
def dm_data (uninit : ℚ) (ifg : Ifg) (degree : ℕ) (offset : PyVal) : List (List ℚ) :=
  (List.range ifg.num_cells).map (dmRow uninit degree offset ifg.ncols ifg.x_size ifg.y_size)

/-- get_design_matrix from orbital.py.  The source contains no raise
statement and no degree validation, so the result is always ok. -/
def get_design_matrix (uninit : ℚ) (ifg : Ifg) (degree : ℕ) (offset : PyVal) :
    Except PyErr (List (List ℚ)) :=
  .ok (dm_data uninit ifg degree offset)

/-- Modelled from the spec: the epoch set of a list of date identifiers in
first-seen order (the algorithm module holding master_slave_ids,
get_all_epochs and get_epoch_count is not part of the sources; section 3 of
the spec fixes a bijection onto 0..n_epochs-1 assigned by first-seen order
across a deterministic traversal). -/
def epochList (dates : List ℕ) : List ℕ :=
  dates.foldl (fun acc d => if d ∈ acc then acc else acc ++ [d]) []

/-- Modelled from the spec: master_slave_ids maps each epoch identifier to
its small integer index in first-seen order. -/
def master_slave_ids (dates : List ℕ) : ℕ → ℕ :=
  fun d => (epochList dates).indexOf d

/-- Modelled from the spec: get_all_epochs is the deterministic traversal
of all master identifiers followed by all slave identifiers. -/
def get_all_epochs (ifgs : List Ifg) : List ℕ :=
  ifgs.map Ifg.master ++ ifgs.map Ifg.slave

/-- Modelled from the spec: get_epoch_count is the number of distinct
epochs across the collection. -/
def get_epoch_count (ifgs : List Ifg) : ℕ :=
  (epochList (get_all_epochs ifgs)).length

/-- Dot product of two vectors (numpy dot restricted to equal lengths; the
callers below always supply matching lengths). -/
def dotL (a b : List ℚ) : ℚ := (List.zipWith (· * ·) a b).sum

/-- Matrix times vector, rows as lists. -/
def matVec (A : List (List ℚ)) (v : List ℚ) : List ℚ := A.map fun row => dotL row v

/-- Row filter dm[~isnan(vphase)]: keep the rows of dm at positions where
the observation is not NaN. -/
def maskRows (dm : List (List ℚ)) (vphase : List (Option ℚ)) : List (List ℚ) :=
  (dm.zip vphase).filterMap fun p => if p.2.isSome then some p.1 else none

/-- vphase[~isnan(vphase)]: the non-NaN observations themselves. -/
def validObs (vphase : List (Option ℚ)) : List ℚ := vphase.filterMap id

/-- Insertion into a sorted list of rationals. -/
def insertSorted (x : ℚ) : List ℚ → List ℚ
  | [] => [x]
  | y :: ys => if x ≤ y then x :: y :: ys else y :: insertSorted x ys

/-- Insertion sort, used to model the sort inside numpy median. -/
def sortQ (l : List ℚ) : List ℚ := l.foldr insertSorted []

/-- numpy median of a 1-D array: middle element of the sorted data for odd
length, mean of the two middle elements for even length, NaN (modelled as
Option.none) for an empty array. -/
def median (l : List ℚ) : Option ℚ :=
  let s := sortQ l
  let n := l.length
  if n = 0 then Option.none
  else if n % 2 = 1 then some (s.getD (n / 2) 0)
  else some ((s.getD (n / 2 - 1) 0 + s.getD (n / 2) 0) / 2)

/-- IEEE-style subtraction of a possibly-NaN scalar from a possibly-NaN
cell: the result is NaN when either argument is. -/
def subNaN (p : Option ℚ) (x : Option ℚ) : Option ℚ :=
  match p, x with
  | some v, some w => some (v - w)
  | _, _ => Option.none

/-- A dense 2-D float array: shape plus an entry function.  Entries outside
the shape are irrelevant junk, as for a C buffer. -/
structure Mat where
  rows : ℕ
  cols : ℕ
  entry : ℕ → ℕ → ℚ

/-- Elementwise negation of a list-of-rows matrix (-tmp in the source). -/
def negM (B : List (List ℚ)) : List (List ℚ) := B.map fun r => r.map Neg.neg

/-- numpy slice assignment M[r0:r1, c0:c1] = B.  Slices clip at the array
bounds; the assignment succeeds when the value has exactly the slice row
count (or a single row, broadcast down the rows) and matching row widths,
and raises ValueError otherwise. -/
def assignBlock (M : Mat) (r0 r1 c0 c1 : ℕ) (B : List (List ℚ)) : Except PyErr Mat :=
  let rlo := min r0 M.rows
  let rhi := min r1 M.rows
  let clo := min c0 M.cols
  let chi := min c1 M.cols
  if (B.length = rhi - rlo ∨ B.length = 1) ∧ B.all (fun row => row.length = chi - clo) then
    .ok { M with entry := fun r c =>
      if rlo ≤ r ∧ r < rhi ∧ clo ≤ c ∧ c < chi then
        (B.getD ((r - rlo) % B.length) []).getD (c - clo) 0
      else M.entry r c }
  else
    .error (.value "could not broadcast input array into slice")

/-- numpy slice assignment M[r0:r1, c] = v with a scalar value, which
always broadcasts. -/
def assignColScalar (M : Mat) (r0 r1 c : ℕ) (v : ℚ) : Mat :=
  { M with entry := fun r cc =>
      if min r0 M.rows ≤ r ∧ r < min r1 M.rows ∧ cc = c ∧ c < M.cols then v
      else M.entry r cc }

/-- The enumerate loop of get_network_design_matrix: for the i-th
interferogram, assign -tmp at the master epoch column block and tmp at the
slave epoch column block of its row block, then set its offset column. -/
def netLoop (tmp : List (List ℚ)) (offs : Bool) (offsetCol ncoef : ℕ) (eid : ℕ → ℕ) :
    ℕ → List Ifg → Mat → Except PyErr Mat
  | _, [], M => .ok M
  | i, ifg :: rest, M =>
    let rs := i * ifg.num_cells
    let m := eid ifg.master * ncoef
    let s := eid ifg.slave * ncoef
    match assignBlock M rs (rs + ifg.num_cells) m (m + ncoef) (negM tmp) with
    | .error e => .error e
    | .ok M1 =>
      match assignBlock M1 rs (rs + ifg.num_cells) s (s + ncoef) tmp with
      | .error e => .error e
      | .ok M2 =>
        let M3 := if offs then assignColScalar M2 rs (rs + ifg.num_cells) (offsetCol + i) 1 else M2
        netLoop tmp offs offsetCol ncoef eid (i + 1) rest M3

/-- get_network_design_matrix from orbital.py: validates the degree and a
non-empty collection, sizes the matrix from the first interferogram, then
runs the assignment loop. -/
def get_network_design_matrix (uninit : ℚ) (ifgs : List Ifg) (degree : ℕ) (offset : PyVal) :
    Except PyErr Mat :=
  if degree ∉ [PLANAR, QUADRATIC, PART_CUBIC] then
    .error (.orbital "Invalid degree argument")
  else
    match ifgs with
    | [] => .error (.orbital "Invalid number of Ifgs")
    | ifg0 :: _ =>
      let nifgs := ifgs.length
      let nepochs := get_epoch_count ifgs
      let ncoef := get_num_params degree .none
      let shape1 := ncoef * nepochs + (if offset.truthy then nifgs else 0)
      let M0 : Mat := ⟨ifg0.num_cells * nifgs, shape1, fun _ _ => 0⟩
      let dates := ifgs.map Ifg.master ++ ifgs.map Ifg.slave
      let eid := master_slave_ids dates
      let offsetCol := nepochs * ncoef
      match get_design_matrix uninit ifg0 degree (.bool false) with
      | .error e => .error e
      | .ok tmp => netLoop tmp offset.truthy offsetCol ncoef eid 0 ifgs M0

/-- The model fitted inside the independent correction: the solver applied
to the NaN-filtered system, exactly as the source computes it. -/
def ind_model (lstsq : List (List ℚ) → List ℚ → Except String (List ℚ)) (uninit : ℚ)
    (ifg : Ifg) (degree : ℕ) (offset : PyVal) : Except PyErr (List ℚ) :=
  match get_design_matrix uninit ifg degree offset with
  | .error e => .error e
  | .ok dm =>
    match lstsq (maskRows dm ifg.phase_data) (validObs ifg.phase_data) with
    | .error msg => .error (.solverFail msg)
    | .ok model => .ok model

/-- independent_correction from orbital.py: fit the model on the NaN
filtered system, evaluate the forward model on the full design matrix and
subtract it from the phase data in place. -/
def independent_correction (lstsq : List (List ℚ) → List ℚ → Except String (List ℚ))
    (uninit : ℚ) (ifg : Ifg) (degree : ℕ) (offset : PyVal) : Except PyErr Ifg :=
  let vphase := ifg.phase_data
  match get_design_matrix uninit ifg degree offset with
  | .error e => .error e
  | .ok dm =>
    match lstsq (maskRows dm vphase) (validObs vphase) with
    | .error msg => .error (.solverFail msg)
    | .ok model =>
      let correction := matVec dm model
      .ok { ifg with phase_data := (vphase.zip correction).map fun p => p.1.map fun v => v - p.2 }

/-- The rows of a Mat as lists, for the NaN row filter of the network fit. -/
def matRows (M : Mat) : List (List ℚ) :=
  (List.range M.rows).map fun r => (List.range M.cols).map fun c => M.entry r c

/-- The stacked observation vector vstack of the flattened phase arrays. -/
def flattenPhases (ifgs : List Ifg) : List (Option ℚ) := (ifgs.map Ifg.phase_data).flatten

/-- Element (a, b) of a flattened vector viewed, after reshape, as a
row-major (r0, c0) array and broadcast (a dimension of 1 is repeated)
against a target 2-D shape whose position (a, b) is being read. -/
def bcastAt (orb : List ℚ) (r0 c0 a b : ℕ) : ℚ :=
  orb.getD ((if r0 = 1 then 0 else a) * c0 + (if c0 = 1 then 0 else b)) 0

/-- The body of the final loop of network_correction: the correction
vector is reshaped to ifgs[0].shape = (r0, c0) and subtracted from the 2-D
phase array of i by numpy array arithmetic, with the median-of-residual
offset estimation when offsets are requested.  The in-place subtraction
requires the (r0, c0) shape to be broadcastable to i's phase shape (each
dimension equal to the target dimension, or 1) and raises a broadcast
ValueError otherwise; a shape that already fails the preceding
out-of-place subtraction of the offset branch fails this condition too,
with the same observable outcome (a ValueError with this phase array
unchanged), so a single up-front check models both failure points. -/
def netUpdate (coefs : List (List ℚ)) (dm2 : List (List ℚ)) (eid : ℕ → ℕ) (r0 c0 : ℕ)
    (offset : PyVal) (i : Ifg) : Except PyErr Ifg :=
  let orb := matVec dm2
    (List.zipWith (fun a b => a - b) (coefs.getD (eid i.slave) []) (coefs.getD (eid i.master) []))
  if (r0 = i.nrows ∨ r0 = 1) ∧ (c0 = i.ncols ∨ c0 = 1) then
    if offset.truthy then
      let resid := (List.range i.num_cells).map fun k =>
        (i.phase_data.getD k Option.none).map fun v =>
          v - bcastAt orb r0 c0 (k / i.ncols) (k % i.ncols)
      let med := median (validObs resid)
      .ok { i with phase_data := ((List.range i.num_cells).map fun k =>
        subNaN (i.phase_data.getD k Option.none)
          (med.map fun m => bcastAt orb r0 c0 (k / i.ncols) (k % i.ncols) + m)) }
    else
      .ok { i with phase_data := ((List.range i.num_cells).map fun k =>
        (i.phase_data.getD k Option.none).map fun v =>
          v - bcastAt orb r0 c0 (k / i.ncols) (k % i.ncols)) }
  else
    .error (.value "operands could not be broadcast together")

/-- The final loop of network_correction: interferograms are corrected in
order; a broadcast ValueError aborts the loop, leaving the
already-processed prefix mutated and the rest untouched. -/
def netSubLoop (coefs : List (List ℚ)) (dm2 : List (List ℚ)) (eid : ℕ → ℕ) (r0 c0 : ℕ)
    (offset : PyVal) : List Ifg → List Ifg × Option PyErr
  | [] => ([], Option.none)
  | g :: rest =>
    match netUpdate coefs dm2 eid r0 c0 offset g with
    | .error e => (g :: rest, some e)
    | .ok g2 =>
      let r := netSubLoop coefs dm2 eid r0 c0 offset rest
      (g2 :: r.1, r.2)

/-- network_correction from orbital.py: one joint solve via the
pseudo-inverse (the numpy pinv with cutoff 1e-6 is the parameter pinv),
per-epoch coefficient blocks, then per-interferogram subtraction of the
difference surface, with the median-of-residual offset when requested.
The first component of the result is the state of the collection when the
call finishes (normally or with the returned exception). -/
def network_correction (pinv : List (List ℚ) → List (List ℚ)) (uninit : ℚ)
    (ifgs : List Ifg) (degree : ℕ) (offset : PyVal) (m_ifgs : Option (List Ifg)) :
    List Ifg × Option PyErr :=
  let src_ifgs := m_ifgs.getD ifgs
  let vphase := flattenPhases src_ifgs
  match get_network_design_matrix uninit src_ifgs degree offset with
  | .error e => (ifgs, some e)
  | .ok ndm =>
    let tmp := maskRows (matRows ndm) vphase
    let fd := validObs vphase
    let model := matVec (pinv tmp) fd
    let ncoef := get_num_params degree .none
    let eid := master_slave_ids (get_all_epochs ifgs)
    let nepochs := (epochList (get_all_epochs ifgs)).length
    let coefs := (List.range nepochs).map fun j => (model.drop (j * ncoef)).take ncoef
    match ifgs with
    | [] => ([], Option.none)
    | ifg0 :: _ =>
      match get_design_matrix uninit ifg0 degree (.bool false) with
      | .error e => (ifgs, some e)
      | .ok dm2 => netSubLoop coefs dm2 eid ifg0.nrows ifg0.ncols offset ifgs

/-- validate_mlooked from orbital.py: the multilooked list must have the
same length as ifgs and every element must expose phase data (an element
that does not is modelled as Option.none). -/
def validate_mlooked (mlooked : List (Option Ifg)) (ifgs : List Ifg) : Option PyErr :=
  if mlooked.length ≠ ifgs.length then
    some (.orbital "Mismatching # ifgs and # multilooked ifgs")
  else if ¬ mlooked.all Option.isSome then
    some (.orbital "Mismatching types in multilooked ifgs arg")
  else
    Option.none

/-- The independent-method loop of orbital_correction: items are corrected
in order; an exception aborts the loop, leaving the already-processed
prefix mutated and the rest untouched. -/
def indLoop (lstsq : List (List ℚ) → List ℚ → Except String (List ℚ)) (uninit : ℚ)
    (degree : ℕ) (offset : PyVal) : List Ifg → List Ifg × Option PyErr
  | [] => ([], Option.none)
  | ifg :: rest =>
    match independent_correction lstsq uninit ifg degree offset with
    | .error e => (ifg :: rest, some e)
    | .ok ifg2 =>
      let r := indLoop lstsq uninit degree offset rest
      (ifg2 :: r.1, r.2)

/-- orbital_correction from orbital.py.  The returned list is the state of
the interferogram collection when the call finishes (normally or with the
returned exception); the final else branch is unreachable, as in the
source. -/
def orbital_correction (lstsq : List (List ℚ) → List ℚ → Except String (List ℚ))
    (pinv : List (List ℚ) → List (List ℚ)) (uninit : ℚ) (ifgs : List Ifg)
    (degree : ℕ) (method : ℕ) (mlooked : Option (List (Option Ifg))) (offset : PyVal) :
    List Ifg × Option PyErr :=
  if degree ∉ [PLANAR, QUADRATIC, PART_CUBIC] then
    (ifgs, some (.orbital "Invalid degree for orbital correction"))
  else if method ∉ [INDEPENDENT_METHOD, NETWORK_METHOD] then
    (ifgs, some (.orbital "Unknown method, need INDEPENDENT or NETWORK method"))
  else if method = NETWORK_METHOD then
    match mlooked with
    | Option.none => network_correction pinv uninit ifgs degree offset Option.none
    | some ml =>
      match validate_mlooked ml ifgs with
      | some e => (ifgs, some e)
      | Option.none =>
        network_correction pinv uninit ifgs degree offset (some (ml.map fun o => o.getD default))
  else if method = INDEPENDENT_METHOD then
    indLoop lstsq uninit degree offset ifgs
  else
    (ifgs, some (.orbital "Unrecognised orbital correction method"))

/-- Follows the spec wording for claim C2: delete every row whose
observation is NaN from both the design matrix and the observation vector. -/
def dropNaNRows (D : List (List ℚ)) (y : List (Option ℚ)) : List (List ℚ) × List ℚ :=
  let kept := (D.zip y).filterMap fun p => p.2.map fun v => (p.1, v)
  (kept.map Prod.fst, kept.map Prod.snd)

/-- Follows the spec wording for claim C2: the ordinary least-squares fit
computed on the manually pre-filtered non-NaN subset of the system. -/
def prefiltered_fit (lstsq : List (List ℚ) → List ℚ → Except String (List ℚ)) (uninit : ℚ)
    (ifg : Ifg) (degree : ℕ) (offset : PyVal) : Except PyErr (List ℚ) :=
  let dm := dm_data uninit ifg degree offset
  let sys := dropNaNRows dm ifg.phase_data
  match lstsq sys.1 sys.2 with
  | .error msg => .error (.solverFail msg)
  | .ok model => .ok model

/-- The joint network model actually solved for: the pseudo-inverse solve
on the NaN-filtered stacked system of the collection. -/
def net_model (pinv : List (List ℚ) → List (List ℚ)) (uninit : ℚ) (ifgs : List Ifg)
    (degree : ℕ) (offset : PyVal) : List ℚ :=
  match get_network_design_matrix uninit ifgs degree offset with
  | .error _ => []
  | .ok ndm =>
    matVec (pinv (maskRows (matRows ndm) (flattenPhases ifgs))) (validObs (flattenPhases ifgs))

/-- Follows the spec wording for claim C6: the coefficient block of epoch
index j, the j-th ncoef-slice of the network model. -/
def net_coef (pinv : List (List ℚ) → List (List ℚ)) (uninit : ℚ) (ifgs : List Ifg)
    (degree : ℕ) (offset : PyVal) (j : ℕ) : List ℚ :=
  ((net_model pinv uninit ifgs degree offset).drop (j * get_num_params degree .none)).take
    (get_num_params degree .none)

/-- Follows the spec wording for claim C6: the correction surface of one
interferogram, D times (coef of the slave epoch minus coef of the master
epoch), with D the no-offset design matrix of the first interferogram. -/
def net_orb (pinv : List (List ℚ) → List (List ℚ)) (uninit : ℚ) (ifgs : List Ifg)
    (degree : ℕ) (offset : PyVal) (i : Ifg) : List ℚ :=
  matVec (dm_data uninit (ifgs.headD default) degree (.bool false))
    (List.zipWith (fun a b => a - b)
      (net_coef pinv uninit ifgs degree offset (master_slave_ids (get_all_epochs ifgs) i.slave))
      (net_coef pinv uninit ifgs degree offset (master_slave_ids (get_all_epochs ifgs) i.master)))

/-- Follows the spec wording for claim C6: the updated phase is
phase minus orb minus the median m of the residual over valid pixels. -/
def specOffsetUpdate (phase : List (Option ℚ)) (orb : List ℚ) (m : ℚ) : List (Option ℚ) :=
  List.zipWith (fun p o => p.map fun v => v - o - m) phase orb

/-- Entry of the network design matrix inside the row block of one
interferogram g (block index gi, local row p): the slave epoch column block
holds tmp, the master epoch column block holds -tmp (the slave assignment
comes second in the source and wins on overlap), the offset column of the
block holds 1, and every other column keeps the previous value. -/
def bandVal (tmp : List (List ℚ)) (offs : Bool) (offsetCol ncoef : ℕ) (eid : ℕ → ℕ)
    (g : Ifg) (gi p c : ℕ) (old : ℚ) : ℚ :=
  if eid g.slave * ncoef ≤ c ∧ c < eid g.slave * ncoef + ncoef then
    (tmp.getD p []).getD (c - eid g.slave * ncoef) 0
  else if eid g.master * ncoef ≤ c ∧ c < eid g.master * ncoef + ncoef then
    -((tmp.getD p []).getD (c - eid g.master * ncoef) 0)
  else if offs = true ∧ c = offsetCol + gi then 1
  else old

section Claims

/-- A value that is not the literal True never triggers the offset tests
written as offset is True. -/
theorem PyVal.isTrue_eq_false {v : PyVal} (hv : v ≠ .bool true) : v.isTrue = false := by
  cases v with
  | none => rfl
  | bool b => cases b with
    | false => rfl
    | true => exact absurd rfl hv
  | int n => rfl

/-- C10: get_num_params and get_design_matrix add the offset column only
when the offset argument is the literal boolean True; any other value,
including the truthy integer 1, behaves exactly as offset=False. -/
theorem C10_offset_only_literal_true (v : PyVal) (hv : v ≠ .bool true)
    (degree : ℕ) (uninit : ℚ) (ifg : Ifg) :
    get_num_params degree v = get_num_params degree (.bool false) ∧
    get_design_matrix uninit ifg degree v = get_design_matrix uninit ifg degree (.bool false) := by
  have h := PyVal.isTrue_eq_false hv
  constructor
  · simp [get_num_params, h, PyVal.isTrue]
  · simp [get_design_matrix, dm_data, dmRow, get_num_params, h, PyVal.isTrue]

theorem C10_offset_only_literal_true_witness :
    (PyVal.int 1 ≠ PyVal.bool true) ∧
    (get_num_params PLANAR (.int 1) = get_num_params PLANAR (.bool false) ∧
     get_design_matrix 0 ⟨1, 1, 1, 1, 0, 1, [some 0]⟩ PLANAR (.int 1) =
       get_design_matrix 0 ⟨1, 1, 1, 1, 0, 1, [some 0]⟩ PLANAR (.bool false)) :=
  ⟨by decide, C10_offset_only_literal_true (.int 1) (by decide) PLANAR 0 ⟨1, 1, 1, 1, 0, 1, [some 0]⟩⟩

/-- C3 counterexample: get_design_matrix performs no degree validation.  At
the invalid degree 0 it raises nothing and returns a matrix whose basis
columns carry the uninitialised buffer value (here 7), with only the offset
column set. -/
theorem C3_counterexample :
    get_design_matrix 7 ⟨1, 1, 1, 1, 0, 1, [Option.none]⟩ 0 (.bool true) =
      .ok [[7, 7, 7, 7, 7, 7, 1]] := by rfl

/-- C3 (amended): for a degree outside PLANAR, QUADRATIC, PART_CUBIC the
top-level orbital_correction raises the invalid-degree OrbitalError with no
interferogram mutated, and get_network_design_matrix raises the
invalid-degree OrbitalError; get_design_matrix, however, performs no degree
validation and returns a matrix normally. -/
theorem C3_invalid_degree (degree : ℕ) (hdeg : degree ∉ [PLANAR, QUADRATIC, PART_CUBIC])
    (lstsq : List (List ℚ) → List ℚ → Except String (List ℚ))
    (pinv : List (List ℚ) → List (List ℚ)) (uninit : ℚ) (ifgs : List Ifg)
    (method : ℕ) (mlooked : Option (List (Option Ifg))) (offset : PyVal) (ifg : Ifg) :
    orbital_correction lstsq pinv uninit ifgs degree method mlooked offset =
      (ifgs, some (.orbital "Invalid degree for orbital correction")) ∧
    get_network_design_matrix uninit ifgs degree offset =
      .error (.orbital "Invalid degree argument") ∧
    get_design_matrix uninit ifg degree offset = .ok (dm_data uninit ifg degree offset) := by
  refine ⟨?_, ?_, rfl⟩
  · simp [orbital_correction, hdeg]
  · simp [get_network_design_matrix, hdeg]

theorem C3_invalid_degree_witness :
    ((0 : ℕ) ∉ [PLANAR, QUADRATIC, PART_CUBIC]) ∧
    (orbital_correction (fun _ _ => .ok []) (fun _ => []) 0 [] 0 NETWORK_METHOD Option.none .none =
      ([], some (.orbital "Invalid degree for orbital correction")) ∧
     get_network_design_matrix 0 [] 0 .none = .error (.orbital "Invalid degree argument") ∧
     get_design_matrix 0 ⟨1, 1, 1, 1, 0, 1, [Option.none]⟩ 0 .none =
       .ok (dm_data 0 ⟨1, 1, 1, 1, 0, 1, [Option.none]⟩ 0 .none)) :=
  ⟨by decide, C3_invalid_degree 0 (by decide) (fun _ _ => .ok []) (fun _ => []) 0 [] NETWORK_METHOD
    Option.none .none ⟨1, 1, 1, 1, 0, 1, [Option.none]⟩⟩

theorem dm_data_length (uninit : ℚ) (ifg : Ifg) (degree : ℕ) (offset : PyVal) :
    (dm_data uninit ifg degree offset).length = ifg.num_cells := by
  simp [dm_data]

theorem matVec_length (A : List (List ℚ)) (v : List ℚ) : (matVec A v).length = A.length := by
  simp [matVec]

theorem kept_map_fst (D : List (List ℚ)) : ∀ y : List (Option ℚ),
    (((D.zip y).filterMap fun p => p.2.map fun v => (p.1, v)).map Prod.fst) = maskRows D y := by
  induction D with
  | nil => intro y; rfl
  | cons a D ih =>
    intro y
    cases y with
    | nil => rfl
    | cons b y' =>
      cases b with
      | none => simpa [maskRows, List.filterMap_cons] using ih y'
      | some v => simpa [maskRows, List.filterMap_cons] using ih y'

theorem kept_map_snd (D : List (List ℚ)) : ∀ y : List (Option ℚ), D.length = y.length →
    (((D.zip y).filterMap fun p => p.2.map fun v => (p.1, v)).map Prod.snd) = validObs y := by
  induction D with
  | nil =>
    intro y hy
    cases y with
    | nil => rfl
    | cons b y' => exact absurd hy (by simp)
  | cons a D ih =>
    intro y hy
    cases y with
    | nil => exact absurd hy (by simp)
    | cons b y' =>
      have hy' : D.length = y'.length := by simpa using hy
      cases b with
      | none => simpa [validObs, List.filterMap_cons] using ih y' hy'
      | some v => simpa [validObs, List.filterMap_cons] using ih y' hy'

theorem dropNaNRows_fst (D : List (List ℚ)) (y : List (Option ℚ)) :
    (dropNaNRows D y).1 = maskRows D y := kept_map_fst D y

theorem dropNaNRows_snd (D : List (List ℚ)) (y : List (Option ℚ)) (h : D.length = y.length) :
    (dropNaNRows D y).2 = validObs y := kept_map_snd D y h

/-- C2: for an interferogram with both NaN and valid phase values, the
independent-method model coefficients are exactly the solver output on the
system obtained by deleting every NaN row from both the design matrix and
the observation vector (the manually pre-filtered fit), and the applied
correction is the forward model of exactly those coefficients. -/
theorem C2_independent_nan_rows_deleted
    (lstsq : List (List ℚ) → List ℚ → Except String (List ℚ)) (uninit : ℚ) (ifg : Ifg)
    (degree : ℕ) (offset : PyVal)
    (hlen : ifg.phase_data.length = ifg.num_cells)
    (hnan : ∃ p ∈ ifg.phase_data, p = Option.none)
    (hvalid : ∃ p ∈ ifg.phase_data, p.isSome) :
    ind_model lstsq uninit ifg degree offset = prefiltered_fit lstsq uninit ifg degree offset ∧
    ∀ model, ind_model lstsq uninit ifg degree offset = .ok model →
      independent_correction lstsq uninit ifg degree offset =
        .ok { ifg with phase_data :=
          ((ifg.phase_data.zip (matVec (dm_data uninit ifg degree offset) model)).map
            (fun p => p.1.map fun v => v - p.2)) } := by
  have hD : (dm_data uninit ifg degree offset).length = ifg.phase_data.length := by
    rw [dm_data_length, hlen]
  constructor
  · simp only [ind_model, prefiltered_fit, get_design_matrix]
    rw [dropNaNRows_fst, dropNaNRows_snd _ _ hD]
  · intro model h
    simp only [ind_model, get_design_matrix] at h
    simp only [independent_correction, get_design_matrix]
    cases e : lstsq (maskRows (dm_data uninit ifg degree offset) ifg.phase_data)
        (validObs ifg.phase_data) with
    | error msg => rw [e] at h; exact absurd h (by simp)
    | ok m =>
      rw [e] at h
      have hm : m = model := by simpa using h
      subst hm
      rfl

theorem C2_independent_nan_rows_deleted_witness :
    (([some 4, Option.none] : List (Option ℚ)).length = (Ifg.mk 1 2 1 1 0 1 [some 4, Option.none]).num_cells) ∧
    (∃ p ∈ ([some 4, Option.none] : List (Option ℚ)), p = Option.none) ∧
    (∃ p ∈ ([some 4, Option.none] : List (Option ℚ)), p.isSome) ∧
    (ind_model (fun _ _ => .ok []) 0 ⟨1, 2, 1, 1, 0, 1, [some 4, Option.none]⟩ PLANAR .none =
       prefiltered_fit (fun _ _ => .ok []) 0 ⟨1, 2, 1, 1, 0, 1, [some 4, Option.none]⟩ PLANAR .none ∧
     ∀ model, ind_model (fun _ _ => .ok []) 0 ⟨1, 2, 1, 1, 0, 1, [some 4, Option.none]⟩ PLANAR .none = .ok model →
       independent_correction (fun _ _ => .ok []) 0 ⟨1, 2, 1, 1, 0, 1, [some 4, Option.none]⟩ PLANAR .none =
         .ok { Ifg.mk 1 2 1 1 0 1 [some 4, Option.none] with phase_data :=
           ((([some 4, Option.none] : List (Option ℚ)).zip
             (matVec (dm_data 0 ⟨1, 2, 1, 1, 0, 1, [some 4, Option.none]⟩ PLANAR .none) model)).map
             (fun p => p.1.map fun v => v - p.2)) }) :=
  ⟨by decide, by decide, by decide,
    C2_independent_nan_rows_deleted (fun _ _ => .ok []) 0 ⟨1, 2, 1, 1, 0, 1, [some 4, Option.none]⟩
      PLANAR .none (by decide) (by decide) (by decide)⟩

theorem maskRows_all_none (D : List (List ℚ)) : ∀ y : List (Option ℚ),
    (∀ p ∈ y, p = Option.none) → maskRows D y = [] := by
  induction D with
  | nil => intro y _; rfl
  | cons a D ih =>
    intro y hy
    cases y with
    | nil => rfl
    | cons b y' =>
      have hb : b = Option.none := hy b (by simp)
      subst hb
      simpa [maskRows, List.filterMap_cons] using ih y' fun p hp => hy p (by simp [hp])

theorem validObs_all_none {y : List (Option ℚ)} (hy : ∀ p ∈ y, p = Option.none) :
    validObs y = [] := by
  induction y with
  | nil => rfl
  | cons b y' ih =>
    have hb : b = Option.none := hy b (by simp)
    subst hb
    simpa [validObs, List.filterMap_cons] using ih fun p hp => hy p (by simp [hp])

theorem subzip_all_none : ∀ (y : List (Option ℚ)) (corr : List ℚ),
    (∀ p ∈ y, p = Option.none) → y.length ≤ corr.length →
    ((y.zip corr).map fun p => p.1.map fun v => v - p.2) = y := by
  intro y
  induction y with
  | nil => intro corr _ _; rfl
  | cons b y' ih =>
    intro corr hy hlen
    cases corr with
    | nil => simp at hlen
    | cons c corr' =>
      have hb : b = Option.none := hy b (by simp)
      subst hb
      have := ih corr' (fun p hp => hy p (by simp [hp])) (by simpa using hlen)
      simp [this]

/-- C5 (amended): the independent fit performs no all-NaN check.  For an
interferogram whose phase is entirely NaN the filtered system is empty and
is handed to the external solver as is; whatever the solver does is the
outcome: a solver failure propagates as a bare solver error with no
identification of the failing item, and a solver that returns coefficients
on the empty system makes the correction finish without any error, leaving
the all-NaN phase array unchanged. -/
theorem C5_all_nan_no_error (lstsq : List (List ℚ) → List ℚ → Except String (List ℚ))
    (uninit : ℚ) (ifg : Ifg) (degree : ℕ) (offset : PyVal)
    (hlen : ifg.phase_data.length = ifg.num_cells)
    (hnan : ∀ p ∈ ifg.phase_data, p = Option.none) :
    independent_correction lstsq uninit ifg degree offset =
      match lstsq [] [] with
      | .error msg => .error (.solverFail msg)
      | .ok _ => .ok ifg := by
  simp only [independent_correction, get_design_matrix]
  rw [maskRows_all_none _ _ hnan, validObs_all_none hnan]
  cases e : lstsq [] [] with
  | error msg => simp
  | ok model =>
    simp only []
    have hc : ifg.phase_data.length ≤ (matVec (dm_data uninit ifg degree offset) model).length := by
      rw [matVec_length, dm_data_length, hlen]
    rw [subzip_all_none _ _ hnan hc]

theorem C5_all_nan_no_error_witness :
    (([Option.none] : List (Option ℚ)).length = (Ifg.mk 1 1 1 1 0 1 [Option.none]).num_cells) ∧
    (∀ p ∈ ([Option.none] : List (Option ℚ)), p = Option.none) ∧
    (independent_correction (fun _ _ => .ok []) 0 ⟨1, 1, 1, 1, 0, 1, [Option.none]⟩ PLANAR .none =
      match (fun (_ : List (List ℚ)) (_ : List ℚ) => (Except.ok [] : Except String (List ℚ))) [] [] with
      | .error msg => .error (.solverFail msg)
      | .ok _ => .ok ⟨1, 1, 1, 1, 0, 1, [Option.none]⟩) :=
  ⟨by decide, by decide,
    C5_all_nan_no_error (fun _ _ => .ok []) 0 ⟨1, 1, 1, 1, 0, 1, [Option.none]⟩ PLANAR .none
      (by decide) (by decide)⟩

/-- C5 counterexample: on an interferogram whose observation vector is
entirely NaN, the independent correction raises no no-valid-data error at
all: with a solver returning empty coefficients on the empty system it
returns normally and the phase array is unchanged. -/
theorem C5_counterexample :
    independent_correction (fun _ _ => .ok []) 0 ⟨1, 2, 1, 1, 0, 1, [Option.none, Option.none]⟩
      PLANAR (.bool true) = .ok ⟨1, 2, 1, 1, 0, 1, [Option.none, Option.none]⟩ := by rfl

theorem zipmap_getElem (y : List (Option ℚ)) : ∀ (corr : List ℚ), y.length ≤ corr.length → ∀ k : ℕ,
    ((y.zip corr).map (fun p => p.1.map fun v => v - p.2))[k]? =
      (y[k]?).map fun o => o.map fun v => v - corr.getD k 0 := by
  induction y with
  | nil => intro corr _ k; simp
  | cons b y' ih =>
    intro corr hlen k
    cases corr with
    | nil => simp at hlen
    | cons c corr' =>
      cases k with
      | zero => simp
      | succ k' => simpa using ih corr' (by simpa using hlen) k'

theorem range_map_getD {α : Type} (n k : ℕ) (g : ℕ → α) (d : α) (hk : k < n) :
    ((List.range n).map g).getD k d = g k := by
  simp [List.getD_eq_getElem?_getD, List.getElem?_range, hk]

/-- C9: the independent correction preserves the no-data mask: the result
keeps the array shape, every NaN pixel stays NaN, and every valid pixel is
shifted by exactly the forward-model value of its design-matrix row. -/
theorem C9_independent_nan_mask_invariant
    (lstsq : List (List ℚ) → List ℚ → Except String (List ℚ)) (uninit : ℚ) (ifg : Ifg)
    (degree : ℕ) (offset : PyVal) (model : List ℚ)
    (hlen : ifg.phase_data.length = ifg.num_cells)
    (hsolve : lstsq (maskRows (dm_data uninit ifg degree offset) ifg.phase_data)
        (validObs ifg.phase_data) = .ok model) :
    ∃ ifg2, independent_correction lstsq uninit ifg degree offset = .ok ifg2 ∧
      ifg2.nrows = ifg.nrows ∧ ifg2.ncols = ifg.ncols ∧
      ifg2.phase_data.length = ifg.phase_data.length ∧
      ∀ k : ℕ, ifg2.phase_data[k]? = (ifg.phase_data[k]?).map fun o =>
        o.map fun v =>
          v - dotL (dmRow uninit degree offset ifg.ncols ifg.x_size ifg.y_size k) model := by
  have hcorr : (matVec (dm_data uninit ifg degree offset) model).length = ifg.phase_data.length := by
    rw [matVec_length, dm_data_length, hlen]
  have hres : independent_correction lstsq uninit ifg degree offset =
      .ok { ifg with phase_data :=
        ((ifg.phase_data.zip (matVec (dm_data uninit ifg degree offset) model)).map
          (fun p => p.1.map fun v => v - p.2)) } := by
    simp only [independent_correction, get_design_matrix]
    rw [hsolve]
  refine ⟨_, hres, rfl, rfl, ?_, ?_⟩
  · simp [List.length_zip, hcorr]
  · intro k
    rw [show ({ ifg with phase_data :=
        ((ifg.phase_data.zip (matVec (dm_data uninit ifg degree offset) model)).map
          (fun p => p.1.map fun v => v - p.2)) } : Ifg).phase_data =
        ((ifg.phase_data.zip (matVec (dm_data uninit ifg degree offset) model)).map
          (fun p => p.1.map fun v => v - p.2)) from rfl]
    rw [zipmap_getElem _ _ (le_of_eq hcorr.symm) k]
    by_cases hk : k < ifg.phase_data.length
    · have hget : (matVec (dm_data uninit ifg degree offset) model).getD k 0 =
          dotL (dmRow uninit degree offset ifg.ncols ifg.x_size ifg.y_size k) model := by
        have : matVec (dm_data uninit ifg degree offset) model =
            (List.range ifg.num_cells).map
              (fun j => dotL (dmRow uninit degree offset ifg.ncols ifg.x_size ifg.y_size j) model) := by
          simp [matVec, dm_data, List.map_map, Function.comp]
        rw [this, range_map_getD]
        omega
      rw [hget]
    · have hnone : ifg.phase_data[k]? = Option.none := List.getElem?_eq_none (by omega)
      simp [hnone]

theorem C9_independent_nan_mask_invariant_witness :
    (([some 5, Option.none] : List (Option ℚ)).length =
      (Ifg.mk 1 2 1 1 0 1 [some 5, Option.none]).num_cells) ∧
    ((fun (_ : List (List ℚ)) (_ : List ℚ) => (Except.ok [] : Except String (List ℚ)))
      (maskRows (dm_data 0 ⟨1, 2, 1, 1, 0, 1, [some 5, Option.none]⟩ PLANAR .none)
        (Ifg.mk 1 2 1 1 0 1 [some 5, Option.none]).phase_data)
      (validObs (Ifg.mk 1 2 1 1 0 1 [some 5, Option.none]).phase_data) = .ok []) ∧
    (∃ ifg2, independent_correction (fun _ _ => .ok []) 0 ⟨1, 2, 1, 1, 0, 1, [some 5, Option.none]⟩
        PLANAR .none = .ok ifg2 ∧
      ifg2.nrows = (Ifg.mk 1 2 1 1 0 1 [some 5, Option.none]).nrows ∧
      ifg2.ncols = (Ifg.mk 1 2 1 1 0 1 [some 5, Option.none]).ncols ∧
      ifg2.phase_data.length = (Ifg.mk 1 2 1 1 0 1 [some 5, Option.none]).phase_data.length ∧
      ∀ k : ℕ, ifg2.phase_data[k]? =
        ((Ifg.mk 1 2 1 1 0 1 [some 5, Option.none]).phase_data[k]?).map fun o =>
          o.map fun v => v - dotL (dmRow 0 PLANAR .none 2 1 1 k) []) :=
  ⟨by decide, rfl,
    C9_independent_nan_mask_invariant (fun _ _ => .ok []) 0 ⟨1, 2, 1, 1, 0, 1, [some 5, Option.none]⟩
      PLANAR .none [] (by decide) rfl⟩

theorem negM_length (B : List (List ℚ)) : (negM B).length = B.length := by simp [negM]

theorem negM_mem_length {B : List (List ℚ)} {row : List ℚ} (h : row ∈ negM B) :
    ∃ row0 ∈ B, row = row0.map Neg.neg := by
  simp only [negM, List.mem_map] at h
  obtain ⟨row0, h0, hr⟩ := h
  exact ⟨row0, h0, hr.symm⟩

theorem map_neg_getD : ∀ (row : List ℚ) (c : ℕ), (row.map Neg.neg).getD c 0 = -(row.getD c 0)
  | [], _ => by simp
  | x :: _, 0 => by simp
  | _ :: row, c + 1 => by simpa using map_neg_getD row c

theorem negM_getD : ∀ (B : List (List ℚ)) (p c : ℕ),
    ((negM B).getD p []).getD c 0 = -((B.getD p []).getD c 0)
  | [], _, _ => by simp [negM]
  | row :: _, 0, c => by simpa [negM] using map_neg_getD row c
  | _ :: B, p + 1, c => by simpa [negM] using negM_getD B p c

theorem band_iff {n i r : ℕ} (hn : 0 < n) : i * n ≤ r ∧ r < i * n + n ↔ r / n = i := by
  constructor
  · rintro ⟨h1, h2⟩
    exact Nat.div_eq_of_lt_le h1 (by rw [Nat.succ_mul]; exact h2)
  · intro h
    have hd := Nat.div_add_mod r n
    have hm := Nat.mod_lt r hn
    rw [h] at hd
    have hcomm : i * n = n * i := Nat.mul_comm i n
    constructor
    · rw [Nat.mul_comm]; linarith [Nat.zero_le (r % n)]
    · linarith [hm, hcomm]

theorem assignBlock_ok (M : Mat) (rs n c0 nc : ℕ) (B : List (List ℚ))
    (hr : rs + n ≤ M.rows) (hc : c0 + nc ≤ M.cols)
    (hB : B.length = n) (hw : ∀ row ∈ B, row.length = nc) :
    assignBlock M rs (rs + n) c0 (c0 + nc) B = .ok
      { M with entry := fun r c =>
          if rs ≤ r ∧ r < rs + n ∧ c0 ≤ c ∧ c < c0 + nc then
            (B.getD (r - rs) []).getD (c - c0) 0
          else M.entry r c } := by
  have hrlo : min rs M.rows = rs := min_eq_left (by omega)
  have hrhi : min (rs + n) M.rows = rs + n := min_eq_left hr
  have hclo : min c0 M.cols = c0 := min_eq_left (by omega)
  have hchi : min (c0 + nc) M.cols = c0 + nc := min_eq_left hc
  simp only [assignBlock, hrlo, hrhi, hclo, hchi]
  rw [if_pos]
  · congr 1
    congr 1
    funext r c
    by_cases hcond : rs ≤ r ∧ r < rs + n ∧ c0 ≤ c ∧ c < c0 + nc
    · rw [if_pos hcond, if_pos hcond]
      have hlt : r - rs < B.length := by omega
      rw [Nat.mod_eq_of_lt hlt]
    · rw [if_neg hcond, if_neg hcond]
  · constructor
    · left; omega
    · rw [List.all_eq_true]
      intro row hrow
      simp [hw row hrow]

theorem assignColScalar_entry (M : Mat) (rs n c : ℕ) (v : ℚ) (hr : rs + n ≤ M.rows)
    (r cc : ℕ) :
    (assignColScalar M rs (rs + n) c v).entry r cc =
      if rs ≤ r ∧ r < rs + n ∧ cc = c ∧ c < M.cols then v else M.entry r cc := by
  have h1 : min rs M.rows = rs := min_eq_left (by omega)
  have h2 : min (rs + n) M.rows = rs + n := min_eq_left hr
  simp only [assignColScalar, h1, h2]

theorem netLoop_cons_ok (tmp : List (List ℚ)) (offs : Bool) (oc nc : ℕ) (eid : ℕ → ℕ)
    (i : ℕ) (g : Ifg) (rest : List Ifg) (M M1 M2 : Mat)
    (h1 : assignBlock M (i * g.num_cells) (i * g.num_cells + g.num_cells)
      (eid g.master * nc) (eid g.master * nc + nc) (negM tmp) = .ok M1)
    (h2 : assignBlock M1 (i * g.num_cells) (i * g.num_cells + g.num_cells)
      (eid g.slave * nc) (eid g.slave * nc + nc) tmp = .ok M2) :
    netLoop tmp offs oc nc eid i (g :: rest) M =
      netLoop tmp offs oc nc eid (i + 1) rest
        (if offs then assignColScalar M2 (i * g.num_cells) (i * g.num_cells + g.num_cells) (oc + i) 1
         else M2) := by
  simp only [netLoop, h1, h2]

theorem netLoop_spec (tmp : List (List ℚ)) (offs : Bool) (offsetCol ncoef : ℕ) (eid : ℕ → ℕ)
    (n total : ℕ) (htmp : tmp.length = n) (hw : ∀ row ∈ tmp, row.length = ncoef) :
    ∀ (rest : List Ifg) (i : ℕ) (M : Mat),
      (∀ g ∈ rest, g.num_cells = n) →
      M.rows = n * total →
      i + rest.length ≤ total →
      (∀ g ∈ rest, eid g.master * ncoef + ncoef ≤ offsetCol ∧
        eid g.slave * ncoef + ncoef ≤ offsetCol) →
      offsetCol ≤ M.cols →
      (offs = true → offsetCol + (i + rest.length) ≤ M.cols) →
      ∃ M', netLoop tmp offs offsetCol ncoef eid i rest M = .ok M' ∧
        M'.rows = M.rows ∧ M'.cols = M.cols ∧
        ∀ r c : ℕ, M'.entry r c =
          if 0 < n ∧ i ≤ r / n ∧ r / n < i + rest.length then
            bandVal tmp offs offsetCol ncoef eid (rest.getD (r / n - i) default) (r / n) (r % n) c
              (M.entry r c)
          else M.entry r c := by
  intro rest
  induction rest with
  | nil =>
    intro i M _ _ _ _ _ _
    refine ⟨M, rfl, rfl, rfl, ?_⟩
    intro r c
    rw [if_neg]
    rintro ⟨-, h1, h2⟩
    simp only [List.length_nil, Nat.add_zero] at h2
    omega
  | cons g rest' ih =>
    intro i M hcells hrows hlen hblk hoc hoff
    have hg : g.num_cells = n := hcells g (by simp)
    have htotal : i + 1 + rest'.length ≤ total := by
      simp only [List.length_cons] at hlen; omega
    have hrbound : i * n + n ≤ M.rows := by
      have h1 : (i + 1) * n ≤ total * n := Nat.mul_le_mul_right n (by omega)
      rw [Nat.succ_mul] at h1
      have h2 : total * n = n * total := Nat.mul_comm total n
      rw [hrows]; linarith
    have hm := (hblk g (by simp)).1
    have hs := (hblk g (by simp)).2
    -- the two block assignments of this iteration
    have e1 := assignBlock_ok M (i * n) n (eid g.master * ncoef) ncoef (negM tmp)
      hrbound (le_trans hm hoc) (by rw [negM_length, htmp]) ?wneg
    case wneg =>
      intro row hrow
      obtain ⟨row0, h0, hr0⟩ := negM_mem_length hrow
      rw [hr0, List.length_map]
      exact hw row0 h0
    set M1 : Mat := { M with entry := (fun r c =>
      if i * n ≤ r ∧ r < i * n + n ∧ eid g.master * ncoef ≤ c ∧ c < eid g.master * ncoef + ncoef
      then ((negM tmp).getD (r - i * n) []).getD (c - eid g.master * ncoef) 0
      else M.entry r c) } with hM1
    have e2 := assignBlock_ok M1 (i * n) n (eid g.slave * ncoef) ncoef tmp
      hrbound (le_trans hs hoc) htmp hw
    set M2 : Mat := { M1 with entry := (fun r c =>
      if i * n ≤ r ∧ r < i * n + n ∧ eid g.slave * ncoef ≤ c ∧ c < eid g.slave * ncoef + ncoef
      then (tmp.getD (r - i * n) []).getD (c - eid g.slave * ncoef) 0
      else M1.entry r c) } with hM2
    set M3 : Mat :=
      (if offs then assignColScalar M2 (i * n) (i * n + n) (offsetCol + i) 1 else M2) with hM3
    have hM3rows : M3.rows = M.rows := by rw [hM3]; cases offs <;> rfl
    have hM3cols : M3.cols = M.cols := by rw [hM3]; cases offs <;> rfl
    have hstep : netLoop tmp offs offsetCol ncoef eid i (g :: rest') M =
        netLoop tmp offs offsetCol ncoef eid (i + 1) rest' M3 := by
      rw [netLoop_cons_ok tmp offs offsetCol ncoef eid i g rest' M M1 M2
        (by rw [hg]; exact e1) (by rw [hg]; exact e2), hM3, hg]
    obtain ⟨M', hrun, hrows', hcols', hentry'⟩ :=
      ih (i + 1) M3 (fun h hh => hcells h (by simp [hh]))
        (by rw [hM3rows, hrows]) htotal
        (fun h hh => hblk h (by simp [hh]))
        (by rw [hM3cols]; exact hoc)
        (fun ho => by
          rw [hM3cols]
          have := hoff ho
          simp only [List.length_cons] at this
          omega)
    refine ⟨M', by rw [hstep]; exact hrun, by rw [hrows', hM3rows],
      by rw [hcols', hM3cols], ?_⟩
    intro r c
    rw [hentry' r c]
    by_cases hn : 0 < n
    · -- the value M3.entry r c, split by whether r lies in the block of g
      by_cases hdi : r / n = i
      · -- row r is inside the block written in this iteration
        have hband : i * n ≤ r ∧ r < i * n + n := (band_iff hn).2 hdi
        have hsub : r - i * n = r % n := by
          have hdm := Nat.div_add_mod r n
          rw [hdi] at hdm
          exact Nat.sub_eq_of_eq_add (by rw [Nat.mul_comm i n]; linarith)
        rw [if_neg (by omega)]
        rw [if_pos (by simp only [List.length_cons]; omega)]
        rw [hdi, Nat.sub_self, List.getD_cons_zero]
        -- both sides are now explicit nested ifs over column regions
        have hcne : M2.cols = M.cols := rfl
        have hscol : M3.entry r c =
            (if offs = true then
              (if i * n ≤ r ∧ r < i * n + n ∧ c = offsetCol + i ∧ offsetCol + i < M.cols then 1
               else M2.entry r c)
             else M2.entry r c) := by
          rw [hM3]
          cases offs with
          | false => simp
          | true =>
            rw [if_pos rfl]
            rw [assignColScalar_entry M2 (i * n) n (offsetCol + i) 1 hrbound r c, hcne]
            exact (if_pos rfl).symm
        have hoc2 : offs = true → offsetCol + i < M.cols := by
          intro ho
          have := hoff ho
          simp only [List.length_cons] at this
          omega
        rw [hscol, hM2, hM1]
        dsimp only
        simp only [bandVal, hsub, negM_getD]
        obtain ⟨hb1, hb2⟩ := hband
        cases offs with
        | false =>
          simp only [Bool.false_eq_true, if_false, false_and]
          split_ifs <;> first | rfl | omega
        | true =>
          have hoc3 := hoc2 rfl
          rw [if_pos rfl]
          simp only [eq_self_iff_true, true_and]
          split_ifs <;> first | rfl | omega
      · -- row r is outside the block of g: this iteration leaves it unchanged
        have hnb : ¬(i * n ≤ r ∧ r < i * n + n) := fun hb => hdi ((band_iff hn).1 hb)
        have hM3same : M3.entry r c = M.entry r c := by
          have h2 : M2.entry r c = M.entry r c := by
            rw [hM2, hM1]
            simp only []
            rw [if_neg (by rintro ⟨ha, hb, -⟩; exact hnb ⟨ha, hb⟩),
              if_neg (by rintro ⟨ha, hb, -⟩; exact hnb ⟨ha, hb⟩)]
          rw [hM3]
          cases offs with
          | false => simpa using h2
          | true =>
            rw [if_pos rfl]
            rw [assignColScalar_entry M2 (i * n) n (offsetCol + i) 1 hrbound r c]
            rw [if_neg (by rintro ⟨ha, hb, -⟩; exact hnb ⟨ha, hb⟩)]
            exact h2
        rw [hM3same]
        by_cases hrest : i + 1 ≤ r / n ∧ r / n < i + 1 + rest'.length
        · rw [if_pos ⟨hn, hrest.1, hrest.2⟩,
            if_pos ⟨hn, by omega, by simp only [List.length_cons]; omega⟩]
          have hidx : r / n - i = (r / n - (i + 1)) + 1 := by omega
          rw [hidx, List.getD_cons_succ]
        · rw [if_neg (by rintro ⟨-, h1, h2⟩; exact hrest ⟨h1, h2⟩),
            if_neg (by
              rintro ⟨-, h1, h2⟩
              simp only [List.length_cons] at h2
              exact absurd ⟨by omega, by omega⟩ hrest)]
    · -- n = 0: every block is empty and nothing is written
      have hn0 : n = 0 := by omega
      subst hn0
      have hM3same : M3.entry r c = M.entry r c := by
        have h2 : M2.entry r c = M.entry r c := by
          rw [hM2, hM1]
          simp only []
          rw [if_neg (by rintro ⟨ha, hb, -⟩; omega), if_neg (by rintro ⟨ha, hb, -⟩; omega)]
        rw [hM3]
        cases offs with
        | false => simpa using h2
        | true =>
          rw [if_pos rfl]
          rw [assignColScalar_entry M2 (i * 0) 0 (offsetCol + i) 1 hrbound r c]
          rw [if_neg (by rintro ⟨ha, hb, -⟩; omega)]
          exact h2
      rw [hM3same, if_neg (by rintro ⟨h0, -⟩; omega), if_neg (by rintro ⟨h0, -⟩; omega)]

theorem median_isSome {l : List ℚ} (h : l ≠ []) : ∃ m, median l = some m := by
  simp only [median]
  rw [if_neg (by simpa using h)]
  by_cases hp : l.length % 2 = 1
  · rw [if_pos hp]; exact ⟨_, rfl⟩
  · rw [if_neg hp]; exact ⟨_, rfl⟩

theorem validObs_resid_ne : ∀ (phase : List (Option ℚ)) (orb : List ℚ),
    (∃ p ∈ phase, p.isSome) → phase.length ≤ orb.length →
    validObs (List.zipWith (fun p o => p.map fun v => v - o) phase orb) ≠ [] := by
  intro phase
  induction phase with
  | nil => intro orb h _; simp at h
  | cons p ps ih =>
    intro orb h hlen
    cases orb with
    | nil => simp at hlen
    | cons o os =>
      cases p with
      | some v => simp [validObs, List.filterMap_cons]
      | none =>
        have h2 : ∃ q ∈ ps, q.isSome := by
          rcases h with ⟨q, hq, hqs⟩
          rcases List.mem_cons.1 hq with rfl | hq2
          · cases hqs
          · exact ⟨q, hq2, hqs⟩
        have := ih os h2 (by simpa using hlen)
        simpa [validObs, List.filterMap_cons] using this

theorem independent_correction_error
    {lstsq : List (List ℚ) → List ℚ → Except String (List ℚ)} {uninit : ℚ} {ifg : Ifg}
    {degree : ℕ} {offset : PyVal} {e : PyErr}
    (h : independent_correction lstsq uninit ifg degree offset = .error e) :
    ∃ msg, e = .solverFail msg := by
  simp only [independent_correction, get_design_matrix] at h
  revert h
  cases lstsq (maskRows (dm_data uninit ifg degree offset) ifg.phase_data)
      (validObs ifg.phase_data) with
  | error msg => intro h; cases h; exact ⟨msg, rfl⟩
  | ok model => intro h; cases h

theorem indLoop_error (lstsq : List (List ℚ) → List ℚ → Except String (List ℚ))
    (uninit : ℚ) (degree : ℕ) (offset : PyVal) :
    ∀ (items : List Ifg) (l : List Ifg) (e : PyErr),
      indLoop lstsq uninit degree offset items = (l, some e) → ∃ msg, e = .solverFail msg := by
  intro items
  induction items with
  | nil =>
    intro l e h
    simp only [indLoop] at h
    injection h with h1 h2
    cases h2
  | cons g rest ih =>
    intro l e h
    simp only [indLoop] at h
    revert h
    cases hcorr : independent_correction lstsq uninit g degree offset with
    | error e0 =>
      intro h
      have he : e0 = e := by
        have := congrArg Prod.snd h
        simpa using this
      subst he
      exact independent_correction_error hcorr
    | ok g2 =>
      intro h
      have h2 : (indLoop lstsq uninit degree offset rest).2 = some e := by
        have := congrArg Prod.snd h
        simpa using this
      exact ih (indLoop lstsq uninit degree offset rest).1 e (by rw [← h2])

theorem bcastAt_self (orb : List ℚ) (r0 c0 k : ℕ) (hk : k < r0 * c0) :
    bcastAt orb r0 c0 (k / c0) (k % c0) = orb.getD k 0 := by
  have hc0 : 0 < c0 := by
    rcases Nat.eq_zero_or_pos c0 with h | h
    · subst h; simp at hk
    · exact h
  have hidx : (if r0 = 1 then 0 else k / c0) * c0 + (if c0 = 1 then 0 else k % c0) = k := by
    by_cases hr : r0 = 1
    · subst hr
      have hklt : k < c0 := by simpa using hk
      have hmod : k % c0 = k := Nat.mod_eq_of_lt hklt
      rw [if_pos rfl, hmod]
      by_cases hc : c0 = 1
      · rw [if_pos hc]; omega
      · rw [if_neg hc]; omega
    · rw [if_neg hr]
      by_cases hc : c0 = 1
      · subst hc
        rw [if_pos rfl, Nat.div_one, Nat.mul_one]
        omega
      · rw [if_neg hc, Nat.mul_comm]
        exact Nat.div_add_mod k c0
  simp only [bcastAt, hidx]

theorem rangeMap_zipWith {β : Type} (f : Option ℚ → ℚ → β) :
    ∀ (phase : List (Option ℚ)) (orb : List ℚ) (n : ℕ),
      phase.length = n → orb.length = n →
      (List.range n).map (fun k => f (phase.getD k Option.none) (orb.getD k 0)) =
        List.zipWith f phase orb := by
  intro phase
  induction phase with
  | nil =>
    intro orb n h1 h2
    rw [← h1]
    simp
  | cons p ps ih =>
    intro orb n h1 h2
    cases orb with
    | nil =>
      rw [← h2] at h1
      simp at h1
    | cons o os =>
      obtain ⟨m, rfl⟩ : ∃ m, n = m + 1 := ⟨ps.length, by simpa using h1.symm⟩
      rw [List.range_succ_eq_map]
      simp only [List.map_cons, List.getD_cons_zero, List.map_map, List.zipWith_cons_cons]
      congr 1
      rw [← ih os m (by simpa using h1) (by simpa using h2)]
      apply List.map_congr_left
      intro k _
      simp [Function.comp, List.getD_cons_succ]

theorem netUpdate_error {coefs : List (List ℚ)} {dm2 : List (List ℚ)} {eid : ℕ → ℕ}
    {r0 c0 : ℕ} {offset : PyVal} {i : Ifg} {e : PyErr}
    (h : netUpdate coefs dm2 eid r0 c0 offset i = .error e) : ∃ msg, e = .value msg := by
  revert h
  simp only [netUpdate]
  split
  · split
    · intro h; cases h
    · intro h; cases h
  · intro h
    cases h
    exact ⟨_, rfl⟩

theorem netSubLoop_error (coefs : List (List ℚ)) (dm2 : List (List ℚ)) (eid : ℕ → ℕ)
    (r0 c0 : ℕ) (offset : PyVal) :
    ∀ (items : List Ifg) (l : List Ifg) (e : PyErr),
      netSubLoop coefs dm2 eid r0 c0 offset items = (l, some e) → ∃ msg, e = .value msg := by
  intro items
  induction items with
  | nil =>
    intro l e h
    simp only [netSubLoop] at h
    injection h with h1 h2
    cases h2
  | cons g rest ih =>
    intro l e h
    simp only [netSubLoop] at h
    revert h
    cases hupd : netUpdate coefs dm2 eid r0 c0 offset g with
    | error e0 =>
      intro h
      have he : e0 = e := by
        have := congrArg Prod.snd h
        simpa using this
      subst he
      exact netUpdate_error hupd
    | ok g2 =>
      intro h
      have h2 : (netSubLoop coefs dm2 eid r0 c0 offset rest).2 = some e := by
        have := congrArg Prod.snd h
        simpa using this
      exact ih (netSubLoop coefs dm2 eid r0 c0 offset rest).1 e (by rw [← h2])

theorem netSubLoop_ok_of (coefs : List (List ℚ)) (dm2 : List (List ℚ)) (eid : ℕ → ℕ)
    (r0 c0 : ℕ) (offset : PyVal) (upd : Ifg → Ifg) :
    ∀ l : List Ifg, (∀ g ∈ l, netUpdate coefs dm2 eid r0 c0 offset g = .ok (upd g)) →
      netSubLoop coefs dm2 eid r0 c0 offset l = (l.map upd, Option.none) := by
  intro l
  induction l with
  | nil => intro _; rfl
  | cons g rest ih =>
    intro hall
    simp only [netSubLoop, hall g (List.mem_cons_self g rest)]
    rw [ih (fun g2 hg2 => hall g2 (List.mem_cons_of_mem g hg2))]
    rfl

theorem network_correction_orbital_unchanged {pinv : List (List ℚ) → List (List ℚ)}
    {uninit : ℚ} {ifgs : List Ifg} {degree : ℕ} {offset : PyVal} {m_ifgs : Option (List Ifg)}
    {l : List Ifg} {msg : String}
    (h : network_correction pinv uninit ifgs degree offset m_ifgs = (l, some (.orbital msg))) :
    l = ifgs := by
  simp only [network_correction] at h
  revert h
  split
  · intro h
    injection h with h1 h2
    exact h1.symm
  · split
    · intro h
      injection h with h1 h2
      cases h2
    · split
      · intro h
        injection h with h1 h2
        exact h1.symm
      · intro h
        obtain ⟨m2, hm2⟩ := netSubLoop_error _ _ _ _ _ _ _ _ _ h
        cases hm2

theorem epochFold_mem : ∀ (l acc : List ℕ) (x : ℕ),
    x ∈ l.foldl (fun acc d => if d ∈ acc then acc else acc ++ [d]) acc ↔ x ∈ acc ∨ x ∈ l := by
  intro l
  induction l with
  | nil => intro acc x; simp
  | cons d l ih =>
    intro acc x
    simp only [List.foldl_cons]
    by_cases hd : d ∈ acc
    · rw [if_pos hd, ih]
      constructor
      · rintro (h | h)
        · exact Or.inl h
        · exact Or.inr (List.mem_cons_of_mem d h)
      · rintro (h | h)
        · exact Or.inl h
        · rcases List.mem_cons.1 h with h | h
          · subst h; exact Or.inl hd
          · exact Or.inr h
    · rw [if_neg hd, ih]
      simp only [List.mem_append, List.mem_cons, List.mem_singleton]
      tauto

theorem epochFold_nodup : ∀ (l acc : List ℕ),
    acc.Nodup → (l.foldl (fun acc d => if d ∈ acc then acc else acc ++ [d]) acc).Nodup := by
  intro l
  induction l with
  | nil => intro acc h; simpa using h
  | cons d l ih =>
    intro acc h
    simp only [List.foldl_cons]
    by_cases hd : d ∈ acc
    · rw [if_pos hd]; exact ih acc h
    · rw [if_neg hd]
      refine ih (acc ++ [d]) ?_
      simp [List.nodup_append, h, hd]

theorem mem_epochList {l : List ℕ} {x : ℕ} : x ∈ epochList l ↔ x ∈ l := by
  simpa using epochFold_mem l [] x

theorem epochList_nodup (l : List ℕ) : (epochList l).Nodup :=
  epochFold_nodup l [] List.nodup_nil

theorem eid_lt {dates : List ℕ} {x : ℕ} (hx : x ∈ dates) :
    master_slave_ids dates x < (epochList dates).length := by
  rw [master_slave_ids]
  exact List.indexOf_lt_length.2 (mem_epochList.2 hx)

theorem eid_inj {dates : List ℕ} {x y : ℕ} (hx : x ∈ dates) (hy : y ∈ dates) (hne : x ≠ y) :
    master_slave_ids dates x ≠ master_slave_ids dates y := by
  rw [master_slave_ids]
  intro h
  exact hne (List.indexOf_inj (mem_epochList.2 hx) (mem_epochList.2 hy) |>.1 h)

theorem dmRow_length (uninit : ℚ) (degree : ℕ) (offset : PyVal) (ncols : ℕ)
    (xsize ysize : ℚ) (k : ℕ) :
    (dmRow uninit degree offset ncols xsize ysize k).length = get_num_params degree offset := by
  simp only [dmRow]
  split_ifs <;> simp

theorem dm_data_row_length (uninit : ℚ) (ifg : Ifg) (degree : ℕ) (offset : PyVal) :
    ∀ row ∈ dm_data uninit ifg degree offset, row.length = get_num_params degree offset := by
  intro row hrow
  simp only [dm_data, List.mem_map] at hrow
  obtain ⟨k, -, hk⟩ := hrow
  rw [← hk, dmRow_length]

theorem assignBlock_shape {M M' : Mat} {r0 r1 c0 c1 : ℕ} {B : List (List ℚ)}
    (h : assignBlock M r0 r1 c0 c1 B = .ok M') : M'.rows = M.rows ∧ M'.cols = M.cols := by
  revert h
  simp only [assignBlock]
  split
  · intro h; cases h; exact ⟨rfl, rfl⟩
  · intro h; cases h

theorem assignBlock_error {M : Mat} {r0 r1 c0 c1 : ℕ} {B : List (List ℚ)} {e : PyErr}
    (h : assignBlock M r0 r1 c0 c1 B = .error e) : ∃ msg, e = .value msg := by
  revert h
  simp only [assignBlock]
  split
  · intro h; cases h
  · intro h; cases h; exact ⟨_, rfl⟩

theorem netLoop_shape (tmp : List (List ℚ)) (offs : Bool) (oc nc : ℕ) (eid : ℕ → ℕ) :
    ∀ (rest : List Ifg) (i : ℕ) (M M' : Mat),
      netLoop tmp offs oc nc eid i rest M = .ok M' → M'.rows = M.rows ∧ M'.cols = M.cols := by
  intro rest
  induction rest with
  | nil => intro i M M' h; cases h; exact ⟨rfl, rfl⟩
  | cons g rest' ih =>
    intro i M M' h
    simp only [netLoop] at h
    cases h1 : assignBlock M (i * g.num_cells) (i * g.num_cells + g.num_cells)
        (eid g.master * nc) (eid g.master * nc + nc) (negM tmp) with
    | error e => simp only [h1] at h; cases h
    | ok M1 =>
      simp only [h1] at h
      cases h2 : assignBlock M1 (i * g.num_cells) (i * g.num_cells + g.num_cells)
          (eid g.slave * nc) (eid g.slave * nc + nc) tmp with
      | error e => simp only [h2] at h; cases h
      | ok M2 =>
        simp only [h2] at h
        have hsh1 := assignBlock_shape h1
        have hsh2 := assignBlock_shape h2
        have hsh3 := ih (i + 1) _ M' h
        cases offs with
        | false => simp only [Bool.false_eq_true, if_false] at hsh3; omega
        | true =>
          rw [if_pos rfl] at hsh3
          have : (assignColScalar M2 (i * g.num_cells) (i * g.num_cells + g.num_cells)
              (oc + i) 1).rows = M2.rows ∧
              (assignColScalar M2 (i * g.num_cells) (i * g.num_cells + g.num_cells)
              (oc + i) 1).cols = M2.cols := ⟨rfl, rfl⟩
          omega

theorem netLoop_error (tmp : List (List ℚ)) (offs : Bool) (oc nc : ℕ) (eid : ℕ → ℕ) :
    ∀ (rest : List Ifg) (i : ℕ) (M : Mat) (e : PyErr),
      netLoop tmp offs oc nc eid i rest M = .error e → ∃ msg, e = .value msg := by
  intro rest
  induction rest with
  | nil => intro i M e h; cases h
  | cons g rest' ih =>
    intro i M e h
    simp only [netLoop] at h
    cases h1 : assignBlock M (i * g.num_cells) (i * g.num_cells + g.num_cells)
        (eid g.master * nc) (eid g.master * nc + nc) (negM tmp) with
    | error e1 =>
      simp only [h1] at h
      cases h
      exact assignBlock_error h1
    | ok M1 =>
      simp only [h1] at h
      cases h2 : assignBlock M1 (i * g.num_cells) (i * g.num_cells + g.num_cells)
          (eid g.slave * nc) (eid g.slave * nc + nc) tmp with
      | error e2 =>
        simp only [h2] at h
        cases h
        exact assignBlock_error h2
      | ok M2 =>
        simp only [h2] at h
        exact ih (i + 1) _ e h

theorem block_bound {e nep nc : ℕ} (h : e < nep) : e * nc + nc ≤ nep * nc := by
  have := Nat.mul_le_mul_right nc (Nat.succ_le_of_lt h)
  rwa [Nat.succ_mul] at this

theorem gndm_open (uninit : ℚ) (ifg0 : Ifg) (rest : List Ifg) (degree : ℕ) (offset : PyVal)
    (hdeg : degree ∈ [PLANAR, QUADRATIC, PART_CUBIC]) :
    get_network_design_matrix uninit (ifg0 :: rest) degree offset =
      netLoop (dm_data uninit ifg0 degree (.bool false)) offset.truthy
        (get_epoch_count (ifg0 :: rest) * get_num_params degree .none)
        (get_num_params degree .none)
        (master_slave_ids (get_all_epochs (ifg0 :: rest))) 0 (ifg0 :: rest)
        ⟨ifg0.num_cells * (ifg0 :: rest).length,
         get_num_params degree .none * get_epoch_count (ifg0 :: rest) +
           (if offset.truthy then (ifg0 :: rest).length else 0),
         fun _ _ => 0⟩ := by
  simp only [get_network_design_matrix, get_design_matrix, get_epoch_count, get_all_epochs]
  rw [if_neg (not_not_intro hdeg)]

theorem netdm_spec (uninit : ℚ) (ifg0 : Ifg) (rest : List Ifg) (degree : ℕ) (offset : PyVal)
    (hdeg : degree ∈ [PLANAR, QUADRATIC, PART_CUBIC])
    (hcells : ∀ g ∈ ifg0 :: rest, g.num_cells = ifg0.num_cells) :
    ∃ M, get_network_design_matrix uninit (ifg0 :: rest) degree offset = .ok M ∧
      M.rows = ifg0.num_cells * (ifg0 :: rest).length ∧
      M.cols = get_num_params degree .none * get_epoch_count (ifg0 :: rest) +
        (if offset.truthy then (ifg0 :: rest).length else 0) ∧
      ∀ r c : ℕ, M.entry r c =
        if 0 < ifg0.num_cells ∧ r / ifg0.num_cells < (ifg0 :: rest).length then
          bandVal (dm_data uninit ifg0 degree (.bool false)) offset.truthy
            (get_epoch_count (ifg0 :: rest) * get_num_params degree .none)
            (get_num_params degree .none)
            (master_slave_ids (get_all_epochs (ifg0 :: rest)))
            ((ifg0 :: rest).getD (r / ifg0.num_cells) default)
            (r / ifg0.num_cells) (r % ifg0.num_cells) c 0
        else 0 := by
  have hmaster : ∀ g ∈ ifg0 :: rest, g.master ∈ get_all_epochs (ifg0 :: rest) := by
    intro g hg
    simp only [get_all_epochs, List.mem_append, List.mem_map]
    exact Or.inl ⟨g, hg, rfl⟩
  have hslave : ∀ g ∈ ifg0 :: rest, g.slave ∈ get_all_epochs (ifg0 :: rest) := by
    intro g hg
    simp only [get_all_epochs, List.mem_append, List.mem_map]
    exact Or.inr ⟨g, hg, rfl⟩
  obtain ⟨M, hrun, hrowsM, hcolsM, hentryM⟩ :=
    netLoop_spec (dm_data uninit ifg0 degree (.bool false)) offset.truthy
      (get_epoch_count (ifg0 :: rest) * get_num_params degree .none)
      (get_num_params degree .none)
      (master_slave_ids (get_all_epochs (ifg0 :: rest)))
      ifg0.num_cells ((ifg0 :: rest).length)
      (dm_data_length uninit ifg0 degree (.bool false))
      (fun row hrow => dm_data_row_length uninit ifg0 degree (.bool false) row hrow)
      (ifg0 :: rest) 0
      ⟨ifg0.num_cells * (ifg0 :: rest).length,
       get_num_params degree .none * get_epoch_count (ifg0 :: rest) +
         (if offset.truthy then (ifg0 :: rest).length else 0),
       fun _ _ => 0⟩
      hcells rfl (by omega)
      (fun g hg => ⟨block_bound (eid_lt (hmaster g hg)), block_bound (eid_lt (hslave g hg))⟩)
      (by
        show get_epoch_count (ifg0 :: rest) * get_num_params degree .none ≤
          get_num_params degree .none * get_epoch_count (ifg0 :: rest) + _
        rw [Nat.mul_comm]
        exact Nat.le_add_right _ _)
      (fun ho => by
        show get_epoch_count (ifg0 :: rest) * get_num_params degree .none +
            (0 + (ifg0 :: rest).length) ≤
          get_num_params degree .none * get_epoch_count (ifg0 :: rest) +
            (if offset.truthy then (ifg0 :: rest).length else 0)
        rw [ho, if_pos rfl, Nat.mul_comm, Nat.zero_add])
  have hopen := gndm_open uninit ifg0 rest degree offset hdeg
  refine ⟨M, by rw [hopen]; exact hrun, by rw [hrowsM], by rw [hcolsM], ?_⟩
  intro r c
  rw [hentryM r c]
  simp only [Nat.zero_add, Nat.sub_zero, Nat.zero_le, true_and]

/-- C8: for a valid degree, any network design matrix that the assembly
returns has exactly num_cells * n_ifgs rows and num_params(degree, False) *
n_epochs columns, plus n_ifgs extra columns when offset is truthy; the base
parameter count is 2, 5 or 6; and an empty collection raises the
invalid-collection OrbitalError. -/
theorem C8_network_dm_shape (uninit : ℚ) (ifgs : List Ifg) (degree : ℕ) (offset : PyVal)
    (hdeg : degree ∈ [PLANAR, QUADRATIC, PART_CUBIC]) (hne : ifgs ≠ []) :
    (∀ M, get_network_design_matrix uninit ifgs degree offset = .ok M →
      M.rows = (ifgs.headD default).num_cells * ifgs.length ∧
      M.cols = get_num_params degree (.bool false) * get_epoch_count ifgs +
        (if offset.truthy then ifgs.length else 0)) ∧
    (get_num_params degree (.bool false) =
      if degree = PLANAR then 2 else if degree = QUADRATIC then 5 else 6) ∧
    get_network_design_matrix uninit [] degree offset =
      .error (.orbital "Invalid number of Ifgs") := by
  obtain ⟨ifg0, rest, rfl⟩ : ∃ a l, ifgs = a :: l := by
    cases ifgs with
    | nil => exact absurd rfl hne
    | cons a l => exact ⟨a, l, rfl⟩
  refine ⟨?_, rfl, ?_⟩
  · intro M hM
    rw [gndm_open uninit ifg0 rest degree offset hdeg] at hM
    have hsh := netLoop_shape _ _ _ _ _ _ _ _ _ hM
    exact ⟨hsh.1, hsh.2⟩
  · simp only [get_network_design_matrix]
    rw [if_neg (not_not_intro hdeg)]

theorem C8_network_dm_shape_witness :
    ((PLANAR : ℕ) ∈ [PLANAR, QUADRATIC, PART_CUBIC]) ∧
    (([⟨1, 2, 1, 1, 0, 1, [some 0, some 0]⟩] : List Ifg) ≠ []) ∧
    ((∀ M, get_network_design_matrix 0 [⟨1, 2, 1, 1, 0, 1, [some 0, some 0]⟩] PLANAR .none = .ok M →
      M.rows = (([⟨1, 2, 1, 1, 0, 1, [some 0, some 0]⟩] : List Ifg).headD default).num_cells *
        ([⟨1, 2, 1, 1, 0, 1, [some 0, some 0]⟩] : List Ifg).length ∧
      M.cols = get_num_params PLANAR (.bool false) *
        get_epoch_count [⟨1, 2, 1, 1, 0, 1, [some 0, some 0]⟩] +
        (if (PyVal.none).truthy then ([⟨1, 2, 1, 1, 0, 1, [some 0, some 0]⟩] : List Ifg).length
         else 0)) ∧
    (get_num_params PLANAR (.bool false) =
      if PLANAR = PLANAR then 2 else if PLANAR = QUADRATIC then 5 else 6) ∧
    get_network_design_matrix 0 [] PLANAR .none = .error (.orbital "Invalid number of Ifgs")) :=
  ⟨by decide, by decide,
    C8_network_dm_shape 0 [⟨1, 2, 1, 1, 0, 1, [some 0, some 0]⟩] PLANAR .none (by decide) (by decide)⟩

/-- C4 counterexample: a collection mixing a 4-pixel and a 2-pixel
interferogram is not rejected with a validation (Orbital) error: assembly
starts, and the second block assignment fails with a numpy broadcast
ValueError instead. -/
theorem C4_counterexample :
    get_network_design_matrix 0 [⟨2, 2, 1, 1, 0, 1, []⟩, ⟨1, 2, 1, 1, 1, 2, []⟩] PLANAR
      (.bool false) = .error (.value "could not broadcast input array into slice") := by rfl

/-- C4 (amended): get_network_design_matrix performs no up-front geometry
validation: for a valid degree and a non-empty collection it never raises
any OrbitalError, whatever the num_cells of the members; a geometry
mismatch surfaces, if at all, as a ValueError from a block assignment
during construction. -/
theorem C4_no_geometry_validation (uninit : ℚ) (ifgs : List Ifg) (degree : ℕ) (offset : PyVal)
    (hdeg : degree ∈ [PLANAR, QUADRATIC, PART_CUBIC]) (hne : ifgs ≠ []) (msg : String) :
    get_network_design_matrix uninit ifgs degree offset ≠ .error (.orbital msg) := by
  obtain ⟨ifg0, rest, rfl⟩ : ∃ a l, ifgs = a :: l := by
    cases ifgs with
    | nil => exact absurd rfl hne
    | cons a l => exact ⟨a, l, rfl⟩
  rw [gndm_open uninit ifg0 rest degree offset hdeg]
  intro h
  obtain ⟨msg2, hmsg⟩ := netLoop_error _ _ _ _ _ _ _ _ _ h
  cases hmsg

theorem C4_no_geometry_validation_witness :
    ((PLANAR : ℕ) ∈ [PLANAR, QUADRATIC, PART_CUBIC]) ∧
    (([⟨2, 2, 1, 1, 0, 1, []⟩, ⟨1, 3, 1, 1, 1, 2, []⟩] : List Ifg) ≠ []) ∧
    get_network_design_matrix 0 [⟨2, 2, 1, 1, 0, 1, []⟩, ⟨1, 3, 1, 1, 1, 2, []⟩] PLANAR .none ≠
      .error (.orbital "mixed geometry") :=
  ⟨by decide, by decide,
    C4_no_geometry_validation 0 [⟨2, 2, 1, 1, 0, 1, []⟩, ⟨1, 3, 1, 1, 1, 2, []⟩] PLANAR .none
      (by decide) (by decide) "mixed geometry"⟩

theorem col_block_iff {e jc c0 nc : ℕ} (hc : c0 < nc) :
    (e * nc ≤ jc * nc + c0 ∧ jc * nc + c0 < e * nc + nc) ↔ jc = e := by
  constructor
  · rintro ⟨h1, h2⟩
    rcases lt_trichotomy jc e with h | h | h
    · have hle : (jc + 1) * nc ≤ e * nc := Nat.mul_le_mul_right _ (by omega)
      rw [Nat.succ_mul] at hle
      linarith
    · exact h
    · have hle : (e + 1) * nc ≤ jc * nc := Nat.mul_le_mul_right _ (by omega)
      rw [Nat.succ_mul] at hle
      linarith
  · rintro rfl
    omega

/-- C1: in the network design matrix of a consistent-geometry collection,
the row block of the idx-th interferogram carries the negated per-pixel
design matrix in the master epoch column block, the positive per-pixel
design matrix in the slave epoch column block, zero in every other epoch
column block, and, when offset is requested, 1 in its own offset column and
0 in the offset columns of the other interferograms. -/
theorem C1_network_dm_blocks (uninit : ℚ) (ifg0 : Ifg) (rest : List Ifg) (degree : ℕ)
    (offset : PyVal)
    (hdeg : degree ∈ [PLANAR, QUADRATIC, PART_CUBIC])
    (hcells : ∀ g ∈ ifg0 :: rest, g.num_cells = ifg0.num_cells)
    (hms : ∀ g ∈ ifg0 :: rest, g.master ≠ g.slave) :
    ∃ M, get_network_design_matrix uninit (ifg0 :: rest) degree offset = .ok M ∧
      ∀ idx, idx < (ifg0 :: rest).length → ∀ p, p < ifg0.num_cells →
        (∀ jc c0, jc < get_epoch_count (ifg0 :: rest) → c0 < get_num_params degree .none →
          ((jc = master_slave_ids (get_all_epochs (ifg0 :: rest))
              ((ifg0 :: rest).getD idx default).master →
            M.entry (idx * ifg0.num_cells + p) (jc * get_num_params degree .none + c0) =
              -(((dm_data uninit ifg0 degree (.bool false)).getD p []).getD c0 0)) ∧
           (jc = master_slave_ids (get_all_epochs (ifg0 :: rest))
              ((ifg0 :: rest).getD idx default).slave →
            M.entry (idx * ifg0.num_cells + p) (jc * get_num_params degree .none + c0) =
              ((dm_data uninit ifg0 degree (.bool false)).getD p []).getD c0 0) ∧
           (jc ≠ master_slave_ids (get_all_epochs (ifg0 :: rest))
              ((ifg0 :: rest).getD idx default).master →
            jc ≠ master_slave_ids (get_all_epochs (ifg0 :: rest))
              ((ifg0 :: rest).getD idx default).slave →
            M.entry (idx * ifg0.num_cells + p) (jc * get_num_params degree .none + c0) = 0))) ∧
        (offset.truthy = true → ∀ idx2, idx2 < (ifg0 :: rest).length →
          M.entry (idx * ifg0.num_cells + p)
              (get_epoch_count (ifg0 :: rest) * get_num_params degree .none + idx2) =
            if idx2 = idx then 1 else 0) := by
  obtain ⟨M, hok, hrowsM, hcolsM, hentry⟩ := netdm_spec uninit ifg0 rest degree offset hdeg hcells
  refine ⟨M, hok, ?_⟩
  intro idx hidx p hp
  have hn : 0 < ifg0.num_cells := by omega
  have hdiv : (idx * ifg0.num_cells + p) / ifg0.num_cells = idx :=
    (band_iff hn).1 ⟨Nat.le_add_right _ _, by omega⟩
  have hmod : (idx * ifg0.num_cells + p) % ifg0.num_cells = p := by
    have hdm := Nat.div_add_mod (idx * ifg0.num_cells + p) ifg0.num_cells
    rw [hdiv] at hdm
    have hcomm : ifg0.num_cells * idx = idx * ifg0.num_cells := Nat.mul_comm _ _
    omega
  have hgmem : (ifg0 :: rest).getD idx default ∈ ifg0 :: rest := by
    rw [List.getD_eq_getElem?_getD, List.getElem?_eq_getElem hidx]
    exact List.getElem_mem hidx
  have hmmem : ((ifg0 :: rest).getD idx default).master ∈ get_all_epochs (ifg0 :: rest) := by
    simp only [get_all_epochs, List.mem_append, List.mem_map]
    exact Or.inl ⟨_, hgmem, rfl⟩
  have hsmem : ((ifg0 :: rest).getD idx default).slave ∈ get_all_epochs (ifg0 :: rest) := by
    simp only [get_all_epochs, List.mem_append, List.mem_map]
    exact Or.inr ⟨_, hgmem, rfl⟩
  have heidm : master_slave_ids (get_all_epochs (ifg0 :: rest))
      ((ifg0 :: rest).getD idx default).master < get_epoch_count (ifg0 :: rest) := eid_lt hmmem
  have heids : master_slave_ids (get_all_epochs (ifg0 :: rest))
      ((ifg0 :: rest).getD idx default).slave < get_epoch_count (ifg0 :: rest) := eid_lt hsmem
  have heidne := eid_inj hmmem hsmem (hms _ hgmem)
  constructor
  · intro jc c0 hjc hc0
    have hcentry := hentry (idx * ifg0.num_cells + p) (jc * get_num_params degree .none + c0)
    rw [if_pos ⟨hn, by rw [hdiv]; exact hidx⟩, hdiv, hmod] at hcentry
    rw [hcentry]
    simp only [bandVal]
    refine ⟨?_, ?_, ?_⟩
    · intro hjm
      rw [if_neg, if_pos ((col_block_iff hc0).2 hjm), hjm, Nat.add_sub_cancel_left]
      intro hcs
      exact heidne (hjm ▸ (col_block_iff hc0).1 hcs ▸ rfl)
    · intro hjs
      rw [if_pos ((col_block_iff hc0).2 hjs), hjs, Nat.add_sub_cancel_left]
    · intro hjm hjs
      rw [if_neg (fun hcs => hjs ((col_block_iff hc0).1 hcs)),
        if_neg (fun hcm => hjm ((col_block_iff hc0).1 hcm))]
      rw [if_neg]
      rintro ⟨-, hco⟩
      have hcb : jc * get_num_params degree .none + c0 <
          get_epoch_count (ifg0 :: rest) * get_num_params degree .none := by
        have := @block_bound _ _ (get_num_params degree .none) hjc
        omega
      omega
  · intro hoffs idx2 hidx2
    have hcentry := hentry (idx * ifg0.num_cells + p)
      (get_epoch_count (ifg0 :: rest) * get_num_params degree .none + idx2)
    rw [if_pos ⟨hn, by rw [hdiv]; exact hidx⟩, hdiv, hmod] at hcentry
    rw [hcentry]
    simp only [bandVal]
    have hsb := @block_bound _ _ (get_num_params degree .none) heids
    have hmb := @block_bound _ _ (get_num_params degree .none) heidm
    rw [if_neg (by rintro ⟨-, hlt⟩; omega), if_neg (by rintro ⟨-, hlt⟩; omega)]
    by_cases hii : idx2 = idx
    · rw [if_pos ⟨hoffs, by rw [hii]⟩, if_pos hii]
    · rw [if_neg (by rintro ⟨-, hco⟩; exact hii (by omega)), if_neg hii]

theorem C1_network_dm_blocks_witness :
    ((PLANAR : ℕ) ∈ [PLANAR, QUADRATIC, PART_CUBIC]) ∧
    (∀ g ∈ ([⟨1, 1, 1, 1, 10, 20, [some 0]⟩, ⟨1, 1, 1, 1, 20, 30, [some 0]⟩] : List Ifg), g.num_cells = Ifg.num_cells ⟨1, 1, 1, 1, 10, 20, [some 0]⟩) ∧
    (∀ g ∈ ([⟨1, 1, 1, 1, 10, 20, [some 0]⟩, ⟨1, 1, 1, 1, 20, 30, [some 0]⟩] : List Ifg), g.master ≠ g.slave) ∧
    (∃ M, get_network_design_matrix 0 [⟨1, 1, 1, 1, 10, 20, [some 0]⟩, ⟨1, 1, 1, 1, 20, 30, [some 0]⟩] PLANAR (.bool true) = .ok M ∧
      ∀ idx, idx < ([⟨1, 1, 1, 1, 10, 20, [some 0]⟩, ⟨1, 1, 1, 1, 20, 30, [some 0]⟩] : List Ifg).length → ∀ p, p < Ifg.num_cells ⟨1, 1, 1, 1, 10, 20, [some 0]⟩ →
        (∀ jc c0, jc < get_epoch_count [⟨1, 1, 1, 1, 10, 20, [some 0]⟩, ⟨1, 1, 1, 1, 20, 30, [some 0]⟩] → c0 < get_num_params PLANAR .none →
          ((jc = master_slave_ids (get_all_epochs [⟨1, 1, 1, 1, 10, 20, [some 0]⟩, ⟨1, 1, 1, 1, 20, 30, [some 0]⟩])
              (([⟨1, 1, 1, 1, 10, 20, [some 0]⟩, ⟨1, 1, 1, 1, 20, 30, [some 0]⟩] : List Ifg).getD idx default).master →
            M.entry (idx * Ifg.num_cells ⟨1, 1, 1, 1, 10, 20, [some 0]⟩ + p) (jc * get_num_params PLANAR .none + c0) =
              -(((dm_data 0 ⟨1, 1, 1, 1, 10, 20, [some 0]⟩ PLANAR (.bool false)).getD p []).getD c0 0)) ∧
           (jc = master_slave_ids (get_all_epochs [⟨1, 1, 1, 1, 10, 20, [some 0]⟩, ⟨1, 1, 1, 1, 20, 30, [some 0]⟩])
              (([⟨1, 1, 1, 1, 10, 20, [some 0]⟩, ⟨1, 1, 1, 1, 20, 30, [some 0]⟩] : List Ifg).getD idx default).slave →
            M.entry (idx * Ifg.num_cells ⟨1, 1, 1, 1, 10, 20, [some 0]⟩ + p) (jc * get_num_params PLANAR .none + c0) =
              ((dm_data 0 ⟨1, 1, 1, 1, 10, 20, [some 0]⟩ PLANAR (.bool false)).getD p []).getD c0 0) ∧
           (jc ≠ master_slave_ids (get_all_epochs [⟨1, 1, 1, 1, 10, 20, [some 0]⟩, ⟨1, 1, 1, 1, 20, 30, [some 0]⟩])
              (([⟨1, 1, 1, 1, 10, 20, [some 0]⟩, ⟨1, 1, 1, 1, 20, 30, [some 0]⟩] : List Ifg).getD idx default).master →
            jc ≠ master_slave_ids (get_all_epochs [⟨1, 1, 1, 1, 10, 20, [some 0]⟩, ⟨1, 1, 1, 1, 20, 30, [some 0]⟩])
              (([⟨1, 1, 1, 1, 10, 20, [some 0]⟩, ⟨1, 1, 1, 1, 20, 30, [some 0]⟩] : List Ifg).getD idx default).slave →
            M.entry (idx * Ifg.num_cells ⟨1, 1, 1, 1, 10, 20, [some 0]⟩ + p) (jc * get_num_params PLANAR .none + c0) = 0))) ∧
        ((PyVal.bool true).truthy = true → ∀ idx2, idx2 < ([⟨1, 1, 1, 1, 10, 20, [some 0]⟩, ⟨1, 1, 1, 1, 20, 30, [some 0]⟩] : List Ifg).length →
          M.entry (idx * Ifg.num_cells ⟨1, 1, 1, 1, 10, 20, [some 0]⟩ + p)
              (get_epoch_count [⟨1, 1, 1, 1, 10, 20, [some 0]⟩, ⟨1, 1, 1, 1, 20, 30, [some 0]⟩] * get_num_params PLANAR .none + idx2) =
            if idx2 = idx then 1 else 0)) :=
  ⟨by decide, by decide, by decide,
    C1_network_dm_blocks 0 ⟨1, 1, 1, 1, 10, 20, [some 0]⟩ [⟨1, 1, 1, 1, 20, 30, [some 0]⟩] PLANAR (.bool true) (by decide) (by decide) (by decide)⟩

/-- C7: every validation failure of orbital_correction is raised before
any phase array is mutated: an invalid degree raises the invalid-degree
OrbitalError with the collection untouched, an invalid method raises the
unknown-method OrbitalError with the collection untouched, a multilooked
argument rejected by validate_mlooked raises that OrbitalError with the
collection untouched, and in general whenever the call reports an
OrbitalError (which covers every validation error, including the assembly
checks of the network path) the collection is returned exactly as passed
in; only the solver failures of the independent loop and the broadcast
ValueErrors of the network subtraction loop arise after mutation has
begun. -/
theorem C7_validation_errors_before_mutation
    (lstsq : List (List ℚ) → List ℚ → Except String (List ℚ))
    (pinv : List (List ℚ) → List (List ℚ)) (uninit : ℚ) (ifgs : List Ifg)
    (degree method : ℕ) (mlooked : Option (List (Option Ifg))) (offset : PyVal) :
    (degree ∉ [PLANAR, QUADRATIC, PART_CUBIC] →
      orbital_correction lstsq pinv uninit ifgs degree method mlooked offset =
        (ifgs, some (.orbital "Invalid degree for orbital correction"))) ∧
    (degree ∈ [PLANAR, QUADRATIC, PART_CUBIC] →
      method ∉ [INDEPENDENT_METHOD, NETWORK_METHOD] →
      orbital_correction lstsq pinv uninit ifgs degree method mlooked offset =
        (ifgs, some (.orbital "Unknown method, need INDEPENDENT or NETWORK method"))) ∧
    (∀ ml e, degree ∈ [PLANAR, QUADRATIC, PART_CUBIC] → method = NETWORK_METHOD →
      mlooked = some ml → validate_mlooked ml ifgs = some e →
      orbital_correction lstsq pinv uninit ifgs degree method mlooked offset =
        (ifgs, some e)) ∧
    (∀ l msg, orbital_correction lstsq pinv uninit ifgs degree method mlooked offset =
        (l, some (.orbital msg)) → l = ifgs) := by
  refine ⟨?_, ?_, ?_, ?_⟩
  · intro h
    simp only [orbital_correction]
    rw [if_pos h]
  · intro h1 h2
    simp only [orbital_correction]
    rw [if_neg (not_not_intro h1), if_pos h2]
  · intro ml e h1 h2 hml hval
    subst h2
    subst hml
    simp only [orbital_correction]
    rw [if_neg (not_not_intro h1), if_neg (by decide), if_pos trivial]
    simp only [hval]
  · intro l msg hres
    simp only [orbital_correction] at hres
    split at hres
    · injection hres with h1 h2; exact h1.symm
    · split at hres
      · injection hres with h1 h2; exact h1.symm
      · split at hres
        · split at hres
          · exact network_correction_orbital_unchanged hres
          · split at hres
            · injection hres with h1 h2; exact h1.symm
            · exact network_correction_orbital_unchanged hres
        · split at hres
          · obtain ⟨m2, hm2⟩ := indLoop_error lstsq uninit degree offset ifgs l _ hres
            cases hm2
          · injection hres with h1 h2; exact h1.symm

theorem C7_validation_errors_before_mutation_witness :
    ((0 : ℕ) ∉ [PLANAR, QUADRATIC, PART_CUBIC]) ∧
    (orbital_correction (fun _ _ => .ok []) (fun _ => []) 0 [⟨1, 1, 1, 1, 0, 1, [some 0]⟩] 0
        NETWORK_METHOD Option.none .none =
      ([⟨1, 1, 1, 1, 0, 1, [some 0]⟩], some (.orbital "Invalid degree for orbital correction"))) :=
  ⟨by decide,
    (C7_validation_errors_before_mutation (fun _ _ => .ok []) (fun _ => []) 0
      [⟨1, 1, 1, 1, 0, 1, [some 0]⟩] 0 NETWORK_METHOD Option.none .none).1 (by decide)⟩

/-- C6: in the network method with offset=True, over a collection of
consistent 2-D geometry each interferogram phase array is updated exactly
to phase - orb - median of the non-NaN residual (phase - orb), where orb
is the design matrix times the difference of the slave and master epoch
coefficient blocks of the joint solve, and the loop completes with no
error. -/
theorem C6_network_offset_median_update (pinv : List (List ℚ) → List (List ℚ)) (uninit : ℚ)
    (ifg0 : Ifg) (rest : List Ifg) (degree : ℕ)
    (hdeg : degree ∈ [PLANAR, QUADRATIC, PART_CUBIC])
    (hshape : ∀ g ∈ ifg0 :: rest, g.nrows = ifg0.nrows ∧ g.ncols = ifg0.ncols)
    (hlens : ∀ g ∈ ifg0 :: rest, g.phase_data.length = ifg0.num_cells)
    (hvalid : ∀ g ∈ ifg0 :: rest, ∃ p ∈ g.phase_data, p.isSome) :
    ∃ l, network_correction pinv uninit (ifg0 :: rest) degree (.bool true) Option.none =
        (l, Option.none) ∧
      l.length = (ifg0 :: rest).length ∧
      ∀ j, j < (ifg0 :: rest).length →
        ∃ m, median (validObs (List.zipWith (fun p o => p.map fun v => v - o)
            ((ifg0 :: rest).getD j default).phase_data
            (net_orb pinv uninit (ifg0 :: rest) degree (.bool true)
              ((ifg0 :: rest).getD j default)))) = some m ∧
          l[j]? = some { (ifg0 :: rest).getD j default with phase_data :=
            (specOffsetUpdate ((ifg0 :: rest).getD j default).phase_data
              (net_orb pinv uninit (ifg0 :: rest) degree (.bool true)
                ((ifg0 :: rest).getD j default)) m) } := by
  have hcells : ∀ g ∈ ifg0 :: rest, g.num_cells = ifg0.num_cells := by
    intro g hg
    simp only [Ifg.num_cells, (hshape g hg).1, (hshape g hg).2]
  obtain ⟨M, hok, -, -, -⟩ := netdm_spec uninit ifg0 rest degree (.bool true) hdeg hcells
  have hnm : net_model pinv uninit (ifg0 :: rest) degree (.bool true) =
      matVec (pinv (maskRows (matRows M) (flattenPhases (ifg0 :: rest))))
        (validObs (flattenPhases (ifg0 :: rest))) := by
    simp only [net_model, hok]
  have hrun : network_correction pinv uninit (ifg0 :: rest) degree (.bool true) Option.none =
      netSubLoop
        ((List.range (epochList (get_all_epochs (ifg0 :: rest))).length).map fun j =>
          ((net_model pinv uninit (ifg0 :: rest) degree (.bool true)).drop
            (j * get_num_params degree .none)).take (get_num_params degree .none))
        (dm_data uninit ifg0 degree (.bool false))
        (master_slave_ids (get_all_epochs (ifg0 :: rest))) ifg0.nrows ifg0.ncols (.bool true)
        (ifg0 :: rest) := by
    simp only [network_correction, Option.getD, hok, get_design_matrix, hnm]
  have hitem : ∀ g ∈ ifg0 :: rest,
      netUpdate
        ((List.range (epochList (get_all_epochs (ifg0 :: rest))).length).map fun j =>
          ((net_model pinv uninit (ifg0 :: rest) degree (.bool true)).drop
            (j * get_num_params degree .none)).take (get_num_params degree .none))
        (dm_data uninit ifg0 degree (.bool false))
        (master_slave_ids (get_all_epochs (ifg0 :: rest))) ifg0.nrows ifg0.ncols (.bool true) g =
      .ok { g with phase_data := (specOffsetUpdate g.phase_data
        (net_orb pinv uninit (ifg0 :: rest) degree (.bool true) g)
        ((median (validObs (List.zipWith (fun p o => p.map fun v => v - o) g.phase_data
          (net_orb pinv uninit (ifg0 :: rest) degree (.bool true) g)))).getD 0)) } := by
    intro g hg
    have hr : g.nrows = ifg0.nrows := (hshape g hg).1
    have hc : g.ncols = ifg0.ncols := (hshape g hg).2
    have hgn : g.num_cells = ifg0.num_cells := hcells g hg
    have hmmem : g.master ∈ get_all_epochs (ifg0 :: rest) := by
      simp only [get_all_epochs, List.mem_append, List.mem_map]
      exact Or.inl ⟨_, hg, rfl⟩
    have hsmem : g.slave ∈ get_all_epochs (ifg0 :: rest) := by
      simp only [get_all_epochs, List.mem_append, List.mem_map]
      exact Or.inr ⟨_, hg, rfl⟩
    have hslt := eid_lt hsmem
    have hmlt := eid_lt hmmem
    have horbg : matVec (dm_data uninit ifg0 degree (.bool false))
        (List.zipWith (fun a b => a - b)
          (((List.range (epochList (get_all_epochs (ifg0 :: rest))).length).map fun j =>
            ((net_model pinv uninit (ifg0 :: rest) degree (.bool true)).drop
              (j * get_num_params degree .none)).take (get_num_params degree .none)).getD
            (master_slave_ids (get_all_epochs (ifg0 :: rest)) g.slave) [])
          (((List.range (epochList (get_all_epochs (ifg0 :: rest))).length).map fun j =>
            ((net_model pinv uninit (ifg0 :: rest) degree (.bool true)).drop
              (j * get_num_params degree .none)).take (get_num_params degree .none)).getD
            (master_slave_ids (get_all_epochs (ifg0 :: rest)) g.master) [])) =
        net_orb pinv uninit (ifg0 :: rest) degree (.bool true) g := by
      rw [range_map_getD _ _ _ _ hslt, range_map_getD _ _ _ _ hmlt]
      rfl
    have horblen : (net_orb pinv uninit (ifg0 :: rest) degree (.bool true) g).length =
        ifg0.num_cells := by
      simp only [net_orb, List.headD]
      rw [matVec_length, dm_data_length]
    have hplen : g.phase_data.length = ifg0.num_cells := hlens g hg
    have hne := validObs_resid_ne g.phase_data
      (net_orb pinv uninit (ifg0 :: rest) degree (.bool true) g)
      (hvalid g hg) (le_of_eq (hplen.trans horblen.symm))
    have hbc : ∀ k, k < g.num_cells →
        bcastAt (net_orb pinv uninit (ifg0 :: rest) degree (.bool true) g)
          ifg0.nrows ifg0.ncols (k / g.ncols) (k % g.ncols) =
        (net_orb pinv uninit (ifg0 :: rest) degree (.bool true) g).getD k 0 := by
      intro k hk
      rw [hc]
      exact bcastAt_self _ _ _ _ (lt_of_lt_of_le hk (le_of_eq hgn))
    have hm : median (validObs (List.zipWith (fun p o => p.map fun v => v - o) g.phase_data
        (net_orb pinv uninit (ifg0 :: rest) degree (.bool true) g))) =
        some ((median (validObs (List.zipWith (fun p o => p.map fun v => v - o) g.phase_data
          (net_orb pinv uninit (ifg0 :: rest) degree (.bool true) g)))).getD 0) := by
      obtain ⟨m0, hm0⟩ := median_isSome hne
      rw [hm0]
      rfl
    have hcompat : (ifg0.nrows = g.nrows ∨ ifg0.nrows = 1) ∧
        (ifg0.ncols = g.ncols ∨ ifg0.ncols = 1) := ⟨Or.inl hr.symm, Or.inl hc.symm⟩
    simp only [netUpdate, PyVal.truthy]
    rw [if_pos hcompat]
    rw [horbg]
    have hresid : ((List.range g.num_cells).map fun k =>
        (g.phase_data.getD k Option.none).map fun v =>
          v - bcastAt (net_orb pinv uninit (ifg0 :: rest) degree (.bool true) g)
            ifg0.nrows ifg0.ncols (k / g.ncols) (k % g.ncols)) =
        List.zipWith (fun p o => p.map fun v => v - o) g.phase_data
          (net_orb pinv uninit (ifg0 :: rest) degree (.bool true) g) := by
      have hstep : ∀ k ∈ List.range g.num_cells,
          ((g.phase_data.getD k Option.none).map fun v =>
            v - bcastAt (net_orb pinv uninit (ifg0 :: rest) degree (.bool true) g)
              ifg0.nrows ifg0.ncols (k / g.ncols) (k % g.ncols)) =
          (fun (p : Option ℚ) (o : ℚ) => p.map fun v => v - o)
            (g.phase_data.getD k Option.none)
            ((net_orb pinv uninit (ifg0 :: rest) degree (.bool true) g).getD k 0) := by
        intro k hk
        rw [hbc k (List.mem_range.mp hk)]
      rw [List.map_congr_left hstep]
      exact rangeMap_zipWith (fun p o => p.map fun v => v - o) _ _ _
        (hplen.trans hgn.symm) (horblen.trans hgn.symm)
    rw [hresid, hm]
    have hfinal : ((List.range g.num_cells).map fun k =>
        subNaN (g.phase_data.getD k Option.none)
          ((some ((median (validObs (List.zipWith (fun p o => p.map fun v => v - o) g.phase_data
            (net_orb pinv uninit (ifg0 :: rest) degree (.bool true) g)))).getD 0)).map fun m =>
            bcastAt (net_orb pinv uninit (ifg0 :: rest) degree (.bool true) g)
              ifg0.nrows ifg0.ncols (k / g.ncols) (k % g.ncols) + m)) =
        List.zipWith (fun p o => p.map fun v => v - o -
          ((median (validObs (List.zipWith (fun p o => p.map fun v => v - o) g.phase_data
            (net_orb pinv uninit (ifg0 :: rest) degree (.bool true) g)))).getD 0)) g.phase_data
          (net_orb pinv uninit (ifg0 :: rest) degree (.bool true) g) := by
      have hstep2 : ∀ k ∈ List.range g.num_cells,
          subNaN (g.phase_data.getD k Option.none)
            ((some ((median (validObs (List.zipWith (fun p o => p.map fun v => v - o) g.phase_data
              (net_orb pinv uninit (ifg0 :: rest) degree (.bool true) g)))).getD 0)).map fun m =>
              bcastAt (net_orb pinv uninit (ifg0 :: rest) degree (.bool true) g)
                ifg0.nrows ifg0.ncols (k / g.ncols) (k % g.ncols) + m) =
          (fun (p : Option ℚ) (o : ℚ) => p.map fun v => v - o -
            ((median (validObs (List.zipWith (fun p o => p.map fun v => v - o) g.phase_data
              (net_orb pinv uninit (ifg0 :: rest) degree (.bool true) g)))).getD 0))
            (g.phase_data.getD k Option.none)
            ((net_orb pinv uninit (ifg0 :: rest) degree (.bool true) g).getD k 0) := by
        intro k hk
        rw [hbc k (List.mem_range.mp hk)]
        cases g.phase_data.getD k Option.none with
        | none => rfl
        | some v =>
          show some (v - ((net_orb pinv uninit (ifg0 :: rest) degree (.bool true) g).getD k 0 +
              ((median (validObs (List.zipWith (fun p o => p.map fun v => v - o) g.phase_data
                (net_orb pinv uninit (ifg0 :: rest) degree (.bool true) g)))).getD 0))) =
            some (v - (net_orb pinv uninit (ifg0 :: rest) degree (.bool true) g).getD k 0 -
              ((median (validObs (List.zipWith (fun p o => p.map fun v => v - o) g.phase_data
                (net_orb pinv uninit (ifg0 :: rest) degree (.bool true) g)))).getD 0))
          rw [sub_add_eq_sub_sub]
      rw [List.map_congr_left hstep2]
      exact rangeMap_zipWith (fun p o => p.map fun v => v - o -
          ((median (validObs (List.zipWith (fun p o => p.map fun v => v - o) g.phase_data
            (net_orb pinv uninit (ifg0 :: rest) degree (.bool true) g)))).getD 0)) _ _ _
        (hplen.trans hgn.symm) (horblen.trans hgn.symm)
    rw [hfinal]
    rfl
  have hloop := netSubLoop_ok_of
    ((List.range (epochList (get_all_epochs (ifg0 :: rest))).length).map fun j =>
      ((net_model pinv uninit (ifg0 :: rest) degree (.bool true)).drop
        (j * get_num_params degree .none)).take (get_num_params degree .none))
    (dm_data uninit ifg0 degree (.bool false))
    (master_slave_ids (get_all_epochs (ifg0 :: rest))) ifg0.nrows ifg0.ncols (.bool true)
    (fun g => { g with phase_data := (specOffsetUpdate g.phase_data
      (net_orb pinv uninit (ifg0 :: rest) degree (.bool true) g)
      ((median (validObs (List.zipWith (fun p o => p.map fun v => v - o) g.phase_data
        (net_orb pinv uninit (ifg0 :: rest) degree (.bool true) g)))).getD 0)) })
    (ifg0 :: rest) hitem
  refine ⟨_, hrun.trans hloop, by simp, ?_⟩
  intro j hj
  have hgmem : (ifg0 :: rest).getD j default ∈ ifg0 :: rest := by
    rw [List.getD_eq_getElem?_getD, List.getElem?_eq_getElem hj]
    exact List.getElem_mem hj
  have horblen2 : (net_orb pinv uninit (ifg0 :: rest) degree (.bool true)
      ((ifg0 :: rest).getD j default)).length = ifg0.num_cells := by
    simp only [net_orb, List.headD]
    rw [matVec_length, dm_data_length]
  have hne2 := validObs_resid_ne ((ifg0 :: rest).getD j default).phase_data
    (net_orb pinv uninit (ifg0 :: rest) degree (.bool true) ((ifg0 :: rest).getD j default))
    (hvalid _ hgmem) (le_of_eq ((hlens _ hgmem).trans horblen2.symm))
  have hm2 : median (validObs (List.zipWith (fun p o => p.map fun v => v - o)
      ((ifg0 :: rest).getD j default).phase_data
      (net_orb pinv uninit (ifg0 :: rest) degree (.bool true)
        ((ifg0 :: rest).getD j default)))) =
      some ((median (validObs (List.zipWith (fun p o => p.map fun v => v - o)
        ((ifg0 :: rest).getD j default).phase_data
        (net_orb pinv uninit (ifg0 :: rest) degree (.bool true)
          ((ifg0 :: rest).getD j default))))).getD 0) := by
    obtain ⟨m0, hm0⟩ := median_isSome hne2
    rw [hm0]
    rfl
  refine ⟨_, hm2, ?_⟩
  rw [List.getElem?_map, List.getElem?_eq_getElem hj, List.getD_eq_getElem?_getD,
    List.getElem?_eq_getElem hj]
  rfl

theorem C6_network_offset_median_update_witness :
    ((PLANAR : ℕ) ∈ [PLANAR, QUADRATIC, PART_CUBIC]) ∧
    (∀ g ∈ ([(⟨1, 1, 1, 1, 10, 20, [some 3]⟩ : Ifg)] : List Ifg), g.nrows = Ifg.nrows ⟨1, 1, 1, 1, 10, 20, [some 3]⟩ ∧ g.ncols = Ifg.ncols ⟨1, 1, 1, 1, 10, 20, [some 3]⟩) ∧
    (∀ g ∈ ([(⟨1, 1, 1, 1, 10, 20, [some 3]⟩ : Ifg)] : List Ifg), g.phase_data.length = Ifg.num_cells ⟨1, 1, 1, 1, 10, 20, [some 3]⟩) ∧
    (∀ g ∈ ([(⟨1, 1, 1, 1, 10, 20, [some 3]⟩ : Ifg)] : List Ifg), ∃ p ∈ g.phase_data, p.isSome) ∧
    (∃ l, network_correction (fun _ => []) 0 [(⟨1, 1, 1, 1, 10, 20, [some 3]⟩ : Ifg)] PLANAR (.bool true) Option.none = (l, Option.none) ∧
      l.length = ([(⟨1, 1, 1, 1, 10, 20, [some 3]⟩ : Ifg)] : List Ifg).length ∧
      ∀ j, j < ([(⟨1, 1, 1, 1, 10, 20, [some 3]⟩ : Ifg)] : List Ifg).length →
        ∃ m, median (validObs (List.zipWith (fun p o => p.map fun v => v - o)
            (([(⟨1, 1, 1, 1, 10, 20, [some 3]⟩ : Ifg)] : List Ifg).getD j default).phase_data
            (net_orb (fun _ => []) 0 [(⟨1, 1, 1, 1, 10, 20, [some 3]⟩ : Ifg)] PLANAR (.bool true)
              (([(⟨1, 1, 1, 1, 10, 20, [some 3]⟩ : Ifg)] : List Ifg).getD j default)))) = some m ∧
          l[j]? = some { ([(⟨1, 1, 1, 1, 10, 20, [some 3]⟩ : Ifg)] : List Ifg).getD j default with phase_data :=
            (specOffsetUpdate (([(⟨1, 1, 1, 1, 10, 20, [some 3]⟩ : Ifg)] : List Ifg).getD j default).phase_data
              (net_orb (fun _ => []) 0 [(⟨1, 1, 1, 1, 10, 20, [some 3]⟩ : Ifg)] PLANAR (.bool true)
                (([(⟨1, 1, 1, 1, 10, 20, [some 3]⟩ : Ifg)] : List Ifg).getD j default)) m) }) :=
  ⟨by decide, by decide, by decide, by decide,
    C6_network_offset_median_update (fun _ => []) 0 ⟨1, 1, 1, 1, 10, 20, [some 3]⟩ [] PLANAR (by decide) (by decide)
      (by decide) (by decide)⟩

end Claims

end PyRate
